import Mathlib

/-!
Verification of the CRUD request handler in `src/app.py`.

The development shallowly embeds the Python module: JSON-compatible Python
values become the inductive `JValue`, Python dictionaries become association
lists, exceptions become `Except PyErr`, and the DynamoDB table becomes an
explicit `Store` oracle.  Every operation additionally reports the list of
storage calls it issued, so that claims about which storage calls happen can
be stated.  Machine-level floating point is abstracted by exact decimal
literals (the handler performs no arithmetic on body values, so this is
observationally faithful for everything the code does with them).
-/

set_option maxHeartbeats 1000000

/-- JSON-compatible Python values as they occur in the handler: `null`,
booleans, ints, `decimal.Decimal` (mantissa `m` scaled by `10 ^ (-s)`, the
shape DynamoDB numbers take), floats (abstracted as exact decimal literals
`m * 10 ^ e`), strings, lists, and dicts (association lists, unique keys,
insertion ordered, as Python dicts are). -/
inductive JValue where
  | null : JValue
  | bool (b : Bool) : JValue
  | int (n : Int) : JValue
  | dec (m : Int) (s : Nat) : JValue
  | float (m : Int) (e : Int) : JValue
  | str (s : String) : JValue
  | arr (xs : List JValue) : JValue
  | obj (kvs : List (String × JValue)) : JValue

/-- Python truthiness (`bool(v)`) for the values above. -/
def truthy : JValue → Bool
  | .null => false
  | .bool b => b
  | .int n => n != 0
  | .dec m _ => m != 0
  | .float m _ => m != 0
  | .str s => s != ""
  | .arr xs => !xs.isEmpty
  | .obj kvs => !kvs.isEmpty

/-- Python `a or b` (returns `a` when truthy, else `b`). -/
def pyOr (a b : JValue) : JValue := if truthy a then a else b

/-- Is the value a Python dict? -/
def JValue.isObj : JValue → Bool
  | .obj _ => true
  | _ => false

/-- Exceptions that can cross the handler's boundary: `ClientError` from the
storage layer (carrying the optional `HTTPStatusCode` of its
`ResponseMetadata` and its `str(...)` form), and any other exception. -/
inductive PyErr where
  | clientError (httpStatus : Option Int) (msg : String) : PyErr
  | otherExc (msg : String) : PyErr

/-- `d.get(k, default)` on a value that must be a dict; any other receiver
raises `AttributeError`, as in Python. -/
def pyGetD (v : JValue) (k : String) (dflt : JValue) : Except PyErr JValue :=
  match v with
  | .obj kvs => .ok ((kvs.lookup k).getD dflt)
  | _ => .error (.otherExc "AttributeError: object has no attribute get")

/-- `d.get(k)` (default `None`) on a value that must be a dict. -/
def pyGet (v : JValue) (k : String) : Except PyErr JValue :=
  pyGetD v k .null

/-- The inbound Lambda event: a JSON object (the gateway always delivers a
mapping at top level). -/
def Event : Type := List (String × JValue)

/-- `event.get(k)` — the event itself is a dict, so this never raises. -/
def evGet (ev : Event) (k : String) : JValue :=
  (List.lookup k ev).getD .null

/-- `event.get(k, dflt)`. -/
def evGetD (ev : Event) (k : String) (dflt : JValue) : JValue :=
  (List.lookup k ev).getD dflt

/-- Code-point-level `str.startswith` (kernel-computable). -/
def strStartsWith (s p : String) : Bool := p.data.isPrefixOf s.data

/-- Code-point-level slicing `s[n:]` (kernel-computable). -/
def strDrop (s : String) (n : Nat) : String := String.mk (s.data.drop n)

/-- ASCII `str.upper` (kernel-computable; the handler only upper-cases
HTTP method names). -/
def strUpper (s : String) : String := String.mk (s.data.map Char.toUpper)

/-- `str.split("/")` core: split at every slash, keeping empty pieces, as
Python does for a one-character separator. -/
def splitSlashAux : List Char → List Char → List String
  | [], acc => [String.mk acc.reverse]
  | c :: t, acc =>
      if c = '/' then String.mk acc.reverse :: splitSlashAux t []
      else splitSlashAux t (c :: acc)

/-- `s.split("/")`. -/
def strSplitSlash (s : String) : List String := splitSlashAux s.data []

/-- `v == "lit"` for a Python value against a string literal. -/
def pyEqStr (v : JValue) (t : String) : Bool :=
  match v with
  | .str s => s == t
  | _ => false

/-- `v.upper()` — raises `AttributeError` unless `v` is a string. -/
def pyUpper (v : JValue) : Except PyErr String :=
  match v with
  | .str s => .ok (strUpper s)
  | _ => .error (.otherExc "AttributeError: object has no attribute upper")

/-- `v.startswith(p)` — raises unless `v` is a string. -/
def pyStartsWith (v : JValue) (p : String) : Except PyErr Bool :=
  match v with
  | .str s => .ok (strStartsWith s p)
  | _ => .error (.otherExc "AttributeError: object has no attribute startswith")

/-- `v[n:]` — raises `TypeError` unless `v` is a string. -/
def pySliceFrom (v : JValue) (n : Nat) : Except PyErr String :=
  match v with
  | .str s => .ok (strDrop s n)
  | _ => .error (.otherExc "TypeError: value is not subscriptable")

/-- `v.split("/")` — raises unless `v` is a string. -/
def pySplitSlash (v : JValue) : Except PyErr (List String) :=
  match v with
  | .str s => .ok (strSplitSlash s)
  | _ => .error (.otherExc "AttributeError: object has no attribute split")

/-- `len(v)` — defined for strings, lists and dicts, `TypeError` otherwise. -/
def pyLen (v : JValue) : Except PyErr Nat :=
  match v with
  | .str s => .ok s.length
  | .arr xs => .ok xs.length
  | .obj kvs => .ok kvs.length
  | _ => .error (.otherExc "TypeError: object has no len")

mutual

/-- `str(v)` / `repr`-style rendering, used only to build the f-string
`f"/{stage}"`; containers render in Python `repr` style. -/
def pyStr : JValue → String
  | .null => "None"
  | .bool b => if b then "True" else "False"
  | .int n => toString n
  | .dec m s => toString m ++ "E-" ++ toString s
  | .float m e => toString m ++ "E" ++ toString e
  | .str s => s
  | .arr xs => "[" ++ pyStrList xs ++ "]"
  | .obj kvs => "\x7b" ++ pyStrObj kvs ++ "\x7d"

def pyStrList : List JValue → String
  | [] => ""
  | [x] => pyStr x
  | x :: xs => pyStr x ++ ", " ++ pyStrList xs

def pyStrObj : List (String × JValue) → String
  | [] => ""
  | [(k, v)] => k ++ ": " ++ pyStr v
  | (k, v) :: t => k ++ ": " ++ pyStr v ++ ", " ++ pyStrObj t

end

/-! ## The serializer: `json.dumps(body, cls=DecimalEncoder)` -/

/-- Decimal digit character (`0`–`9`). -/
def digitChar10 (n : Nat) : Char := Char.ofNat (48 + n)

/-- Lowercase hex digit character. -/
def hexDigitChar (n : Nat) : Char :=
  if n < 10 then Char.ofNat (48 + n) else Char.ofNat (87 + n)

/-- Decimal digits of a natural number, most significant first. -/
def natChars (n : Nat) : List Char :=
  if n = 0 then ['0'] else ((Nat.digits 10 n).reverse.map digitChar10)

/-- Decimal rendering of an integer. -/
def intChars (i : Int) : List Char :=
  if i < 0 then '-' :: natChars i.natAbs else natChars i.toNat

/-- Exact decimal rendering of a nonnegative float value `n * 10 ^ e`, always
containing a decimal point with at least one digit on each side. -/
def floatAbsChars (n : Nat) (e : Int) : List Char :=
  if e ≥ 0 then natChars (n * 10 ^ e.toNat) ++ ['.', '0']
  else
    let k := (-e).toNat
    let s := natChars n
    if s.length ≤ k then
      '0' :: '.' :: (List.replicate (k - s.length) '0' ++ s)
    else
      s.take (s.length - k) ++ '.' :: s.drop (s.length - k)

/-- Rendering of a float `m * 10 ^ e` (exact-decimal abstraction of Python's
`repr` of the float). -/
def floatChars (m : Int) (e : Int) : List Char :=
  if m < 0 then '-' :: floatAbsChars m.natAbs e else floatAbsChars m.toNat e

/-- `\uXXXX` hex quad. -/
def hex4 (n : Nat) : List Char :=
  [hexDigitChar (n / 4096 % 16), hexDigitChar (n / 256 % 16),
   hexDigitChar (n / 16 % 16), hexDigitChar (n % 16)]

/-- `json.dumps` escaping of one character (`ensure_ascii=True`): the two
structural escapes, the short control escapes, `\uXXXX` for other characters
outside printable ASCII (surrogate pairs above the BMP), and the character
itself otherwise. -/
def escChar (c : Char) : List Char :=
  if c = '"' then ['\\', '"']
  else if c = '\\' then ['\\', '\\']
  else if c = '\n' then ['\\', 'n']
  else if c = '\t' then ['\\', 't']
  else if c = '\r' then ['\\', 'r']
  else if c = Char.ofNat 8 then ['\\', 'b']
  else if c = Char.ofNat 12 then ['\\', 'f']
  else if c.toNat < 32 ∨ 126 < c.toNat then
    if c.toNat < 65536 then '\\' :: 'u' :: hex4 c.toNat
    else
      '\\' :: 'u' :: hex4 (55296 + (c.toNat - 65536) / 1024) ++
        '\\' :: 'u' :: hex4 (56320 + (c.toNat - 65536) % 1024)
  else [c]

/-- Escape a whole string body. -/
def escList (cs : List Char) : List Char := cs.flatMap escChar

mutual

/-- `json.dumps(v, cls=DecimalEncoder)` at the character-list level, with
Python's default separators `", "` and `": "`.  The `dec` case is the
`DecimalEncoder`: a `Decimal` with zero fractional part (`o % 1 == 0`) is
serialized as `int(o)`, any other as `float(o)`. -/
def dumpVal : JValue → List Char
  | .null => ['n', 'u', 'l', 'l']
  | .int n => intChars n
  | .bool true => ['t', 'r', 'u', 'e']
  | .str s => '"' :: escList s.data ++ ['"']
  | .bool false => ['f', 'a', 'l', 's', 'e']
  | .dec m s =>
      if (10 : Int) ^ s ∣ m then intChars (m / (10 : Int) ^ s)
      else floatChars m (-(s : Int))
  | .float m e => floatChars m e
  | .arr xs => '[' :: dumpElems xs ++ [']']
  | .obj kvs => '{' :: dumpMembers kvs ++ ['}']

def dumpElems : List JValue → List Char
  | [] => []
  | [x] => dumpVal x
  | x :: xs => dumpVal x ++ ',' :: ' ' :: dumpElems xs

def dumpMembers : List (String × JValue) → List Char
  | [] => []
  | [(k, v)] => '"' :: escList k.data ++ '"' :: ':' :: ' ' :: dumpVal v
  | (k, v) :: t =>
      '"' :: escList k.data ++ '"' :: ':' :: ' ' :: dumpVal v ++
        ',' :: ' ' :: dumpMembers t

end

/-- `json.dumps(v, cls=DecimalEncoder)` as a string. -/
def dumps (v : JValue) : String := String.mk (dumpVal v)

/-! ## The response builder `resp` -/

/-- The response envelope returned to the gateway. -/
structure Response where
  statusCode : Int
  headers : List (String × String)
  body : String
deriving DecidableEq

/-- The fixed header mapping every response carries. -/
def corsHeaders : List (String × String) :=
  [("Content-Type", "application/json"),
   ("Access-Control-Allow-Origin", "*"),
   ("Access-Control-Allow-Headers", "*"),
   ("Access-Control-Allow-Methods", "GET,POST,PUT,DELETE,OPTIONS")]

/-- `resp(status, body)` from `src/app.py`. -/
def resp (status : Int) (body : JValue) : Response :=
  { statusCode := status, headers := corsHeaders, body := dumps body }

/-! ## Standard-library collaborators: `base64.b64decode`, UTF-8, `uuid` -/

/-- Value of a base64 alphabet character (`A`–`Z`, `a`–`z`, `0`–`9`, `+`,
`/`); `none` for every other character (which non-strict `b64decode`
silently discards). -/
def b64Val (c : Char) : Option Nat :=
  let n := c.toNat
  if 65 ≤ n ∧ n ≤ 90 then some (n - 65)
  else if 97 ≤ n ∧ n ≤ 122 then some (n - 71)
  else if 48 ≤ n ∧ n ≤ 57 then some (n + 4)
  else if c = '+' then some 62
  else if c = '/' then some 63
  else none

/-- Core loop of non-strict `binascii.a2b_base64`: `quadPos` counts data
characters modulo 4, `leftover` holds the pending bits; bytes are emitted
eagerly; `=` with two or three pending data characters closes the quad,
otherwise it is skipped; non-alphabet characters are discarded.  A trailing
quad of one data character, or of two or three without padding, raises
`binascii.Error`. -/
def b64Loop : List Char → Nat → Nat → List Nat → Except PyErr (List Nat)
  | [], quadPos, _, out =>
      if quadPos = 0 then .ok out.reverse
      else if quadPos = 1 then
        .error (.otherExc "binascii.Error: invalid base64-encoded string")
      else .error (.otherExc "binascii.Error: incorrect padding")
  | c :: cs, quadPos, leftover, out =>
      if c = '=' then
        if quadPos ≥ 2 then b64Loop cs 0 0 out
        else b64Loop cs quadPos leftover out
      else
        match b64Val c with
        | none => b64Loop cs quadPos leftover out
        | some v =>
          match quadPos with
          | 0 => b64Loop cs 1 v out
          | 1 => b64Loop cs 2 (v % 16) ((leftover * 4 + v / 16) :: out)
          | 2 => b64Loop cs 3 (v % 4) ((leftover * 16 + v / 4) :: out)
          | _ => b64Loop cs 0 0 ((leftover * 64 + v) :: out)

/-- `base64.b64decode(v)`: the argument must be a string of ASCII characters
(Python first encodes it as ASCII, raising `ValueError` otherwise), then the
non-strict decode loop runs. -/
def pyB64Decode (v : JValue) : Except PyErr (List Nat) :=
  match v with
  | .str s =>
      if s.data.all (fun c => c.toNat < 128) then b64Loop s.data 0 0 []
      else .error (.otherExc "ValueError: string argument should contain only ASCII characters")
  | _ => .error (.otherExc "TypeError: argument should be a bytes-like object or ASCII string")

/-- Strict UTF-8 decoding of a byte list (`bytes.decode("utf-8")`),
rejecting truncated sequences, overlong encodings, surrogates and values
beyond `U+10FFFF`, as Python's strict codec does. -/
def utf8Decode : List Nat → Except PyErr (List Char)
  | [] => .ok []
  | b :: rest =>
      if b < 128 then
        match utf8Decode rest with
        | .ok cs => .ok (Char.ofNat b :: cs)
        | .error e => .error e
      else if b < 194 then
        .error (.otherExc "UnicodeDecodeError: invalid start byte")
      else if b < 224 then
        match rest with
        | b2 :: r2 =>
            if 128 ≤ b2 ∧ b2 < 192 then
              match utf8Decode r2 with
              | .ok cs => .ok (Char.ofNat ((b - 192) * 64 + (b2 - 128)) :: cs)
              | .error e => .error e
            else .error (.otherExc "UnicodeDecodeError: invalid continuation byte")
        | [] => .error (.otherExc "UnicodeDecodeError: unexpected end of data")
      else if b < 240 then
        match rest with
        | b2 :: b3 :: r3 =>
            if (128 ≤ b2 ∧ b2 < 192) ∧ (128 ≤ b3 ∧ b3 < 192) ∧
               (b = 224 → 160 ≤ b2) ∧ (b = 237 → b2 < 160) then
              match utf8Decode r3 with
              | .ok cs =>
                  .ok (Char.ofNat ((b - 224) * 4096 + (b2 - 128) * 64 + (b3 - 128)) :: cs)
              | .error e => .error e
            else .error (.otherExc "UnicodeDecodeError: invalid continuation byte")
        | _ => .error (.otherExc "UnicodeDecodeError: unexpected end of data")
      else if b < 245 then
        match rest with
        | b2 :: b3 :: b4 :: r4 =>
            if (128 ≤ b2 ∧ b2 < 192) ∧ (128 ≤ b3 ∧ b3 < 192) ∧
               (128 ≤ b4 ∧ b4 < 192) ∧ (b = 240 → 144 ≤ b2) ∧ (b = 244 → b2 < 144) then
              match utf8Decode r4 with
              | .ok cs =>
                  .ok (Char.ofNat ((b - 240) * 262144 + (b2 - 128) * 4096 +
                        (b3 - 128) * 64 + (b4 - 128)) :: cs)
              | .error e => .error e
            else .error (.otherExc "UnicodeDecodeError: invalid continuation byte")
        | _ => .error (.otherExc "UnicodeDecodeError: unexpected end of data")
      else .error (.otherExc "UnicodeDecodeError: invalid start byte")

/-- `bytes.decode("utf-8")` producing a string. -/
def pyUtf8Decode (bs : List Nat) : Except PyErr String :=
  match utf8Decode bs with
  | .ok cs => .ok (String.mk cs)
  | .error e => .error e

/-- Clamp the random input of `uuid.uuid4()` to exactly 16 bytes. -/
def norm16 (r : List Nat) : List Nat :=
  ((r ++ List.replicate 16 0).take 16).map (fun b => b % 256)

/-- Set the RFC 4122 version (byte 6 high nibble `4`) and variant (byte 8
top bits `10`) as `uuid.UUID(bytes=..., version=4)` does. -/
def maskAt : Nat → List Nat → List Nat
  | _, [] => []
  | i, b :: t =>
      (if i = 6 then b % 16 + 64 else if i = 8 then b % 64 + 128 else b) ::
        maskAt (i + 1) t

/-- Two lowercase hex digits of a byte. -/
def hexByte (b : Nat) : List Char := [hexDigitChar (b / 16 % 16), hexDigitChar (b % 16)]

/-- Hex rendering of a byte list. -/
def bytesHex (bs : List Nat) : List Char := bs.flatMap hexByte

/-- Insert the `8-4-4-4-12` hyphens of a UUID string. -/
def hyphenate (l : List Char) : List Char :=
  l.take 8 ++ '-' :: ((l.drop 8).take 4) ++ '-' :: ((l.drop 12).take 4) ++
    '-' :: ((l.drop 16).take 4) ++ '-' :: (l.drop 20)

/-- `str(uuid.uuid4())` as a function of the 16 random bytes drawn for this
call. -/
def uuidStr (r : List Nat) : String :=
  String.mk (hyphenate (bytesHex (maskAt 0 (norm16 r))))

/-! ## `json.loads` -/

/-- JSON whitespace. -/
def isJsonWs (c : Char) : Bool := c = ' ' ∨ c = '\t' ∨ c = '\n' ∨ c = '\r'

/-- Skip JSON whitespace. -/
def skipWs (cs : List Char) : List Char := cs.dropWhile isJsonWs

/-- ASCII decimal digit test. -/
def isDigit10 (c : Char) : Bool := 48 ≤ c.toNat ∧ c.toNat ≤ 57

/-- Hex digit value accepted inside `\uXXXX`. -/
def hexVal (c : Char) : Option Nat :=
  let n := c.toNat
  if 48 ≤ n ∧ n ≤ 57 then some (n - 48)
  else if 97 ≤ n ∧ n ≤ 102 then some (n - 87)
  else if 65 ≤ n ∧ n ≤ 70 then some (n - 55)
  else none

/-- Single-character escapes of JSON strings. -/
def simpleEsc (c : Char) : Option Char :=
  if c = '"' then some '"'
  else if c = '\\' then some '\\'
  else if c = '/' then some '/'
  else if c = 'b' then some (Char.ofNat 8)
  else if c = 'f' then some (Char.ofNat 12)
  else if c = 'n' then some '\n'
  else if c = 'r' then some '\r'
  else if c = 't' then some '\t'
  else none

/-- Read four hex digits, returning their value and the remainder. -/
def hex4Val : List Char → Option (Nat × List Char)
  | h1 :: h2 :: h3 :: h4 :: rest =>
      match hexVal h1, hexVal h2, hexVal h3, hexVal h4 with
      | some a, some b, some c, some d =>
          some (a * 4096 + b * 256 + c * 16 + d, rest)
      | _, _, _, _ => none
  | _ => none

/-- Parse the body of a JSON string literal (after the opening quote),
accumulating characters in reverse; handles the simple escapes and `\uXXXX`
with surrogate pairs; rejects unescaped control characters and lone
surrogates.  The fuel argument (any value exceeding the source-character
count suffices) keeps the recursion structural. -/
def parseStrAux : Nat → List Char → List Char → Option (List Char × List Char)
  | 0, _, _ => none
  | _ + 1, _, [] => none
  | fuel + 1, acc, c :: cs =>
      if c = '"' then some (acc.reverse, cs)
      else if c = '\\' then
        match cs with
        | [] => none
        | e :: cs2 =>
            if e = 'u' then
              match hex4Val cs2 with
              | none => none
              | some (code, cs3) =>
                  if 55296 ≤ code ∧ code < 56320 then
                    match cs3 with
                    | b1 :: b2 :: cs3b =>
                        if b1 = '\\' ∧ b2 = 'u' then
                          match hex4Val cs3b with
                          | some (lo, cs4) =>
                              if 56320 ≤ lo ∧ lo < 57344 then
                                parseStrAux fuel
                                  (Char.ofNat
                                    (65536 + (code - 55296) * 1024 + (lo - 56320)) :: acc)
                                  cs4
                              else none
                          | none => none
                        else none
                    | _ => none
                  else if 56320 ≤ code ∧ code < 57344 then none
                  else parseStrAux fuel (Char.ofNat code :: acc) cs3
            else
              match simpleEsc e with
              | some c2 => parseStrAux fuel (c2 :: acc) cs2
              | none => none
      else if c.toNat < 32 then none
      else parseStrAux fuel (c :: acc) cs

/-- Numeric value of a digit run. -/
def digitsVal (ds : List Char) : Nat :=
  ds.foldl (fun acc c => acc * 10 + (c.toNat - 48)) 0

/-- Parse a JSON number (grammar `-?int frac? exp?` with the no-leading-zero
rule); an integer literal yields `.int`, any fraction or exponent yields the
exact-decimal `.float`. -/
def parseNum (cs : List Char) : Option (JValue × List Char) :=
  let sign : Bool × List Char :=
    match cs with
    | c :: t => if c = '-' then (true, t) else (false, cs)
    | [] => (false, cs)
  let neg := sign.1
  let cs1 := sign.2
  let ds := cs1.takeWhile isDigit10
  let cs2 := cs1.dropWhile isDigit10
  if ds.isEmpty then none
  else if 1 < ds.length ∧ ds.head? = some '0' then none
  else
    let intPart : Int :=
      if neg then -(digitsVal ds : Int) else (digitsVal ds : Int)
    let finish : List Char → List Char → Option (JValue × List Char) :=
      fun fs cs4 =>
        let mantissa : Int :=
          if neg then -((digitsVal (ds ++ fs) : Int))
          else (digitsVal (ds ++ fs) : Int)
        match cs4 with
        | e :: cs5 =>
            if e = 'e' ∨ e = 'E' then
              let esign : Int × List Char :=
                match cs5 with
                | c :: t =>
                    if c = '+' then (1, t)
                    else if c = '-' then (-1, t)
                    else (1, cs5)
                | [] => (1, cs5)
              let es := esign.2.takeWhile isDigit10
              let cs7 := esign.2.dropWhile isDigit10
              if es.isEmpty then none
              else
                some (.float mantissa
                        (esign.1 * (digitsVal es : Int) - (fs.length : Int)), cs7)
            else if fs.isEmpty then some (.int intPart, cs4)
            else some (.float mantissa (-(fs.length : Int)), cs4)
        | [] =>
            if fs.isEmpty then some (.int intPart, [])
            else some (.float mantissa (-(fs.length : Int)), [])
    match cs2 with
    | c :: cs3 =>
        if c = '.' then
          let fs := cs3.takeWhile isDigit10
          let cs4 := cs3.dropWhile isDigit10
          if fs.isEmpty then none else finish fs cs4
        else finish [] cs2
    | [] => finish [] []

/-- Python-dict insertion: a repeated key replaces the value in place, a new
key is appended. -/
def objInsert : List (String × JValue) → String → JValue → List (String × JValue)
  | [], k, v => [(k, v)]
  | (k0, v0) :: t, k, v =>
      if k0 = k then (k0, v) :: t else (k0, v0) :: objInsert t k v

mutual

/-- Fueled recursive-descent JSON value parser (the fuel plays the role of
Python's recursion limit; `jsonLoads` supplies input-length fuel, which the
round-trip lemmas show suffices for everything the serializer emits). -/
def parseVal : Nat → List Char → Option (JValue × List Char)
  | 0, _ => none
  | fuel + 1, cs =>
      match skipWs cs with
      | [] => none
      | c :: cs1 =>
          if c = '{' then
            match skipWs cs1 with
            | d :: cs2 =>
                if d = '}' then some (.obj [], cs2)
                else parseMembers fuel (d :: cs2) []
            | [] => none
          else if c = '[' then
            match skipWs cs1 with
            | d :: cs2 =>
                if d = ']' then some (.arr [], cs2)
                else parseElems fuel (d :: cs2) []
            | [] => none
          else if c = '"' then
            match parseStrAux (cs1.length + 1) [] cs1 with
            | some (body, rest) => some (.str (String.mk body), rest)
            | none => none
          else if c = 't' then
            match cs1 with
            | 'r' :: 'u' :: 'e' :: rest => some (.bool true, rest)
            | _ => none
          else if c = 'f' then
            match cs1 with
            | 'a' :: 'l' :: 's' :: 'e' :: rest => some (.bool false, rest)
            | _ => none
          else if c = 'n' then
            match cs1 with
            | 'u' :: 'l' :: 'l' :: rest => some (.null, rest)
            | _ => none
          else parseNum (c :: cs1)

/-- Comma-separated array elements after `[` (nonempty case). -/
def parseElems : Nat → List Char → List JValue → Option (JValue × List Char)
  | 0, _, _ => none
  | fuel + 1, cs, acc =>
      match parseVal fuel cs with
      | none => none
      | some (v, cs1) =>
          match skipWs cs1 with
          | ',' :: cs2 => parseElems fuel cs2 (v :: acc)
          | ']' :: cs2 => some (.arr (v :: acc).reverse, cs2)
          | _ => none

/-- Comma-separated object members after `{` (nonempty case). -/
def parseMembers : Nat → List Char → List (String × JValue) →
    Option (JValue × List Char)
  | 0, _, _ => none
  | fuel + 1, cs, acc =>
      match skipWs cs with
      | '"' :: cs1 =>
          match parseStrAux (cs1.length + 1) [] cs1 with
          | none => none
          | some (kChars, cs2) =>
              match skipWs cs2 with
              | ':' :: cs3 =>
                  match parseVal fuel cs3 with
                  | none => none
                  | some (v, cs4) =>
                      let acc2 := objInsert acc (String.mk kChars) v
                      match skipWs cs4 with
                      | ',' :: cs5 => parseMembers fuel cs5 acc2
                      | '}' :: cs5 => some (.obj acc2, cs5)
                      | _ => none
              | _ => none
      | _ => none

end

/-- `json.loads(s)`: parse one value, then require only whitespace behind
it. -/
def jsonLoads (s : String) : Except PyErr JValue :=
  match parseVal (s.length + 1) s.data with
  | some (v, rest) =>
      if (skipWs rest).isEmpty then .ok v
      else .error (.otherExc "json.JSONDecodeError: Extra data")
  | none => .error (.otherExc "json.JSONDecodeError: Expecting value")

/-- Is the string valid JSON (accepted by the parser)? -/
def jsonValid (s : String) : Bool :=
  match jsonLoads s with
  | .ok _ => true
  | .error _ => false

/-! ## The storage collaborator and the five operations -/

/-- One storage call, as issued by an operation (the trace element). -/
inductive StoreCall where
  | scan (limit : Nat) : StoreCall
  | get (key : JValue) : StoreCall
  | put (item : List (String × JValue)) : StoreCall
  | del (key : JValue) : StoreCall

/-- The DynamoDB table as an oracle: what each primitive returns for this
invocation.  `scanRes` yields the `Items`/`Count` fields of the scan result,
`getRes` yields the `Item` field of `get_item` (`null` when absent). -/
structure Store where
  scanRes : Except PyErr (List JValue × Int)
  getRes : JValue → Except PyErr JValue
  putRes : List (String × JValue) → Except PyErr Unit
  delRes : JValue → Except PyErr Unit

/-- `list_items()` from `src/app.py`. -/
def list_items (st : Store) : Except PyErr (Response × List StoreCall) :=
  match st.scanRes with
  | .error e => .error e
  | .ok (items, count) =>
      .ok (resp 200 (.obj [("items", .arr items), ("count", .int count)]),
           [.scan 50])

/-- The non-`id` fields of a body mapping (`{k: v for k, v in data.items() if k != "id"}`). -/
def dropIdKey (kvs : List (String × JValue)) : List (String × JValue) :=
  kvs.filter (fun kv => kv.1 != "id")

/-- `create_item(data)` from `src/app.py`; `r` is the randomness consumed by
`uuid.uuid4()` if the body supplies no truthy `id`. -/
def create_item (data : JValue) (st : Store) (r : List Nat) :
    Except PyErr (Response × List StoreCall) :=
  match data with
  | .obj kvs =>
      let idv := pyOr ((kvs.lookup "id").getD .null) (.str (uuidStr r))
      let item := ("id", idv) :: dropIdKey kvs
      match st.putRes item with
      | .error e => .error e
      | .ok _ => .ok (resp 201 (.obj item), [.put item])
  | _ => .ok (resp 400 (.obj [("message", .str "Invalid JSON")]), [])

/-- `read_item(item_id)` from `src/app.py`. -/
def read_item (itemId : JValue) (st : Store) :
    Except PyErr (Response × List StoreCall) :=
  if !truthy itemId then
    .ok (resp 400 (.obj [("message", .str "Missing id")]), [])
  else
    match st.getRes itemId with
    | .error e => .error e
    | .ok item =>
        if !truthy item then
          .ok (resp 404 (.obj [("message", .str "Not found")]), [.get itemId])
        else .ok (resp 200 item, [.get itemId])

/-- `update_item(item_id, data)` from `src/app.py`. -/
def update_item (itemId : JValue) (data : JValue) (st : Store) :
    Except PyErr (Response × List StoreCall) :=
  if !truthy itemId then
    .ok (resp 400 (.obj [("message", .str "Missing id")]), [])
  else
    match data with
    | .obj kvs =>
        let item := ("id", itemId) :: dropIdKey kvs
        match st.putRes item with
        | .error e => .error e
        | .ok _ => .ok (resp 200 (.obj item), [.put item])
    | _ => .ok (resp 400 (.obj [("message", .str "Invalid JSON")]), [])

/-- `delete_item(item_id)` from `src/app.py`. -/
def delete_item (itemId : JValue) (st : Store) :
    Except PyErr (Response × List StoreCall) :=
  if !truthy itemId then
    .ok (resp 400 (.obj [("message", .str "Missing id")]), [])
  else
    match st.delRes itemId with
    | .error e => .error e
    | .ok _ => .ok (resp 204 (.obj []), [.del itemId])

/-! ## The event normalizer -/

/-- Lines 60–62 of `src/app.py`: keep the non-empty path segments; if they
are exactly `["items", x]`, the resource id is `x`, otherwise the
path-parameter value is kept. -/
def idFromPath (segs : List String) (itemId0 : JValue) : JValue :=
  match segs.filter (fun q => q != "") with
  | [a, b] => if a = "items" then .str b else itemId0
  | _ => itemId0

/-- `normalize_event(event)` from `src/app.py`, in source order: extract the
method, the raw path, strip a truthy stage prefix, decode/parse the body
(only `json.loads` is inside the `try`, so `b64decode`/`decode` failures
propagate), extract the resource id, and upper-case the method last. -/
def normalize_event (ev : Event) :
    Except PyErr (String × JValue × JValue × JValue) :=
  let ctx := evGetD ev "requestContext" (.obj [])
  match pyGetD ctx "http" (.obj []) with
  | .error e => .error e
  | .ok http =>
  match pyGet http "method" with
  | .error e => .error e
  | .ok m1 =>
  let methodV := pyOr m1 (pyOr (evGet ev "httpMethod") (.str ""))
  let rawPath0 := pyOr (evGet ev "rawPath") (pyOr (evGet ev "path") (.str "/"))
  match pyGet ctx "stage" with
  | .error e => .error e
  | .ok stage =>
  let strippedPath : Except PyErr JValue :=
    if truthy stage then
      match pyStartsWith rawPath0 ("/" ++ pyStr stage) with
      | .error e => .error e
      | .ok sw =>
          if sw then
            match pyLen stage with
            | .error e => .error e
            | .ok n =>
                match pySliceFrom rawPath0 (n + 1) with
                | .error e => .error e
                | .ok q =>
                    .ok (.str (if strStartsWith q "/" then q else "/" ++ q))
          else .ok rawPath0
    else .ok rawPath0
  match strippedPath with
  | .error e => .error e
  | .ok rawPath =>
  let bodyV := evGet ev "body"
  let decodedBody : Except PyErr JValue :=
    if truthy bodyV && truthy (evGet ev "isBase64Encoded") then
      match pyB64Decode bodyV with
      | .error e => .error e
      | .ok bs =>
          match pyUtf8Decode bs with
          | .error e => .error e
          | .ok t => .ok (.str t)
    else .ok bodyV
  match decodedBody with
  | .error e => .error e
  | .ok bodyV2 =>
  let data : JValue :=
    if truthy bodyV2 then
      match bodyV2 with
      | .str s =>
          match jsonLoads s with
          | .ok v => v
          | .error _ => .obj []
      | _ => .obj []
    else .obj []
  let pp := pyOr (evGet ev "pathParameters") (.obj [])
  match pyGet pp "id" with
  | .error e => .error e
  | .ok itemId0 =>
  let itemIdE : Except PyErr JValue :=
    if truthy itemId0 then .ok itemId0
    else
      match pySplitSlash rawPath with
      | .error e => .error e
      | .ok segs => .ok (idFromPath segs itemId0)
  match itemIdE with
  | .error e => .error e
  | .ok itemId =>
  match pyUpper methodV with
  | .error e => .error e
  | .ok m => .ok (m, rawPath, data, itemId)

/-! ## The handler -/

/-- The pre-`try` phase of `handler`: building the structured log summary
(lines 103–110 of `src/app.py`).  `event.get("requestContext", {}).get("stage")`
and `(... .get("http", {}) or {}).get("method")` both run here, so any
`AttributeError` they raise escapes the handler. -/
def logPhase (ev : Event) : Except PyErr Unit :=
  let ctx := evGetD ev "requestContext" (.obj [])
  match pyGet ctx "stage" with
  | .error e => .error e
  | .ok _ =>
  match pyGetD ctx "http" (.obj []) with
  | .error e => .error e
  | .ok http =>
  match pyGet (pyOr http (.obj [])) "method" with
  | .error e => .error e
  | .ok _ => .ok ()

/-- The raw-method expression of the OPTIONS check (line 112), evaluated a
second time just as the source re-evaluates it. -/
def rawMethodNested (ev : Event) : Except PyErr JValue :=
  let ctx := evGetD ev "requestContext" (.obj [])
  match pyGetD ctx "http" (.obj []) with
  | .error e => .error e
  | .ok http => pyGet (pyOr http (.obj [])) "method"

/-- The dispatch inside the `try` block (lines 117–133). -/
def routeInner (ev : Event) (st : Store) (r : List Nat) :
    Except PyErr (Response × List StoreCall) :=
  match normalize_event ev with
  | .error e => .error e
  | .ok (method, rawPath, data, itemId) =>
      if pyEqStr rawPath "/items" && method == "GET" then
        list_items st
      else if pyEqStr rawPath "/items" && method == "POST" then
        create_item data st r
      else
        match pyStartsWith rawPath "/items/" with
        | .error e => .error e
        | .ok sw =>
            if sw && method == "GET" then read_item itemId st
            else if sw && method == "PUT" then update_item itemId data st
            else if sw && method == "DELETE" then delete_item itemId st
            else
              .ok (resp 400 (.obj [("message", .str "Unsupported route"),
                                   ("path", rawPath),
                                   ("method", .str method)]), [])

/-- The `except` clauses (lines 135–142): a `ClientError` reuses the
storage-reported status (default 500), anything else becomes a 500. -/
def catchExc : Except PyErr (Response × List StoreCall) →
    Response × List StoreCall
  | .ok x => x
  | .error (.clientError code msg) =>
      (resp (code.getD 500) (.obj [("message", .str "DynamoDB error"),
                                   ("error", .str msg)]), [])
  | .error (.otherExc msg) =>
      (resp 500 (.obj [("message", .str "Internal error"),
                       ("error", .str msg)]), [])

/-- `handler(event, context)` from `src/app.py`.  The log phase and the
OPTIONS check run before the `try` block, so their exceptions escape
(`Except.error`); everything routed is wrapped by `catchExc`. -/
def handler (ev : Event) (st : Store) (r : List Nat) :
    Except PyErr (Response × List StoreCall) :=
  match logPhase ev with
  | .error e => .error e
  | .ok _ =>
  match rawMethodNested ev with
  | .error e => .error e
  | .ok mv =>
      if pyEqStr mv "OPTIONS" || pyEqStr (evGet ev "httpMethod") "OPTIONS" then
        .ok (resp 200 (.obj []), [])
      else .ok (catchExc (routeInner ev st r))

/-- Did the pre-`try` log/OPTIONS phase run without raising? -/
def logPhaseOk (ev : Event) : Bool :=
  match logPhase ev with
  | .ok _ => true
  | .error _ => false

/-! ## Basic response/shape lemmas -/

theorem resp_headers (s : Int) (v : JValue) : (resp s v).headers = corsHeaders := rfl

theorem resp_body (s : Int) (v : JValue) : (resp s v).body = dumps v := rfl

theorem resp_statusCode (s : Int) (v : JValue) : (resp s v).statusCode = s := rfl

/-- A store where every primitive succeeds and the table is empty. -/
def stOk : Store :=
  { scanRes := .ok ([], 0)
  , getRes := fun _ => .ok .null
  , putRes := fun _ => .ok ()
  , delRes := fun _ => .ok () }

theorem list_items_shape (st : Store) (x : Response) (t : List StoreCall)
    (h : list_items st = .ok (x, t)) : ∃ s v, x = resp s v := by
  unfold list_items at h
  cases hs : st.scanRes with
  | error e => rw [hs] at h; cases h
  | ok p => rw [hs] at h; cases h; exact ⟨_, _, rfl⟩

theorem create_item_shape (d : JValue) (st : Store) (r : List Nat)
    (x : Response) (t : List StoreCall)
    (h : create_item d st r = .ok (x, t)) : ∃ s v, x = resp s v := by
  unfold create_item at h
  cases d with
  | obj kvs =>
      simp only at h
      cases hp : st.putRes (("id", pyOr ((kvs.lookup "id").getD .null) (.str (uuidStr r))) :: dropIdKey kvs) with
      | error e => rw [hp] at h; cases h
      | ok u => rw [hp] at h; cases h; exact ⟨_, _, rfl⟩
  | null => cases h; exact ⟨_, _, rfl⟩
  | bool b => cases h; exact ⟨_, _, rfl⟩
  | int n => cases h; exact ⟨_, _, rfl⟩
  | dec m s => cases h; exact ⟨_, _, rfl⟩
  | float m e => cases h; exact ⟨_, _, rfl⟩
  | str s => cases h; exact ⟨_, _, rfl⟩
  | arr xs => cases h; exact ⟨_, _, rfl⟩

theorem read_item_shape (i : JValue) (st : Store) (x : Response) (t : List StoreCall)
    (h : read_item i st = .ok (x, t)) : ∃ s v, x = resp s v := by
  unfold read_item at h
  by_cases hi : truthy i
  · simp only [hi] at h
    cases hg : st.getRes i with
    | error e => rw [hg] at h; cases h
    | ok item =>
        rw [hg] at h
        by_cases ht : truthy item
        · simp only [ht] at h; cases h; exact ⟨_, _, rfl⟩
        · simp only [eq_false_of_ne_true ht] at h; cases h; exact ⟨_, _, rfl⟩
  · simp only [eq_false_of_ne_true hi] at h; cases h; exact ⟨_, _, rfl⟩

theorem update_item_shape (i d : JValue) (st : Store) (x : Response) (t : List StoreCall)
    (h : update_item i d st = .ok (x, t)) : ∃ s v, x = resp s v := by
  unfold update_item at h
  by_cases hi : truthy i
  · simp only [hi] at h
    cases d with
    | obj kvs =>
        simp only at h
        cases hp : st.putRes (("id", i) :: dropIdKey kvs) with
        | error e => rw [hp] at h; cases h
        | ok u => rw [hp] at h; cases h; exact ⟨_, _, rfl⟩
    | null => cases h; exact ⟨_, _, rfl⟩
    | bool b => cases h; exact ⟨_, _, rfl⟩
    | int n => cases h; exact ⟨_, _, rfl⟩
    | dec m s => cases h; exact ⟨_, _, rfl⟩
    | float m e => cases h; exact ⟨_, _, rfl⟩
    | str s => cases h; exact ⟨_, _, rfl⟩
    | arr xs => cases h; exact ⟨_, _, rfl⟩
  · simp only [eq_false_of_ne_true hi] at h; cases h; exact ⟨_, _, rfl⟩

theorem delete_item_shape (i : JValue) (st : Store) (x : Response) (t : List StoreCall)
    (h : delete_item i st = .ok (x, t)) : ∃ s v, x = resp s v := by
  unfold delete_item at h
  by_cases hi : truthy i
  · simp only [hi] at h
    cases hd : st.delRes i with
    | error e => rw [hd] at h; cases h
    | ok u => rw [hd] at h; cases h; exact ⟨_, _, rfl⟩
  · simp only [eq_false_of_ne_true hi] at h; cases h; exact ⟨_, _, rfl⟩

theorem routeInner_shape (ev : Event) (st : Store) (r : List Nat)
    (x : Response) (t : List StoreCall)
    (h : routeInner ev st r = .ok (x, t)) : ∃ s v, x = resp s v := by
  unfold routeInner at h
  cases hn : normalize_event ev with
  | error e => rw [hn] at h; cases h
  | ok q =>
      rw [hn] at h
      obtain ⟨method, rawPath, data, itemId⟩ := q
      simp only at h
      by_cases h1 : (pyEqStr rawPath "/items" && method == "GET") = true
      · rw [if_pos h1] at h; exact list_items_shape st x t h
      · rw [if_neg h1] at h
        by_cases h2 : (pyEqStr rawPath "/items" && method == "POST") = true
        · rw [if_pos h2] at h; exact create_item_shape data st r x t h
        · rw [if_neg h2] at h
          cases hw : pyStartsWith rawPath "/items/" with
          | error e => rw [hw] at h; cases h
          | ok sw =>
              rw [hw] at h
              dsimp only at h
              by_cases h3 : (sw && method == "GET") = true
              · rw [if_pos h3] at h; exact read_item_shape itemId st x t h
              · rw [if_neg h3] at h
                by_cases h4 : (sw && method == "PUT") = true
                · rw [if_pos h4] at h; exact update_item_shape itemId data st x t h
                · rw [if_neg h4] at h
                  by_cases h5 : (sw && method == "DELETE") = true
                  · rw [if_pos h5] at h; exact delete_item_shape itemId st x t h
                  · rw [if_neg h5] at h; cases h; exact ⟨_, _, rfl⟩

theorem catchExc_shape (z : Except PyErr (Response × List StoreCall))
    (hz : ∀ x t, z = .ok (x, t) → ∃ s v, x = resp s v) :
    ∃ s v t, catchExc z = (resp s v, t) := by
  cases z with
  | ok p =>
      obtain ⟨x, t⟩ := p
      obtain ⟨s, v, hx⟩ := hz x t rfl
      exact ⟨s, v, t, by simp [catchExc, hx]⟩
  | error e =>
      cases e with
      | clientError code msg => exact ⟨_, _, _, rfl⟩
      | otherExc msg => exact ⟨_, _, _, rfl⟩

theorem logPhase_gives_rawMethod (ev : Event) (h : logPhase ev = .ok ()) :
    ∃ m, rawMethodNested ev = .ok m := by
  unfold logPhase at h
  unfold rawMethodNested
  dsimp only at h ⊢
  cases h1 : pyGet (evGetD ev "requestContext" (.obj [])) "stage" with
  | error e => rw [h1] at h; cases h
  | ok u =>
      rw [h1] at h
      cases h2 : pyGetD (evGetD ev "requestContext" (.obj [])) "http" (.obj []) with
      | error e => rw [h2] at h; cases h
      | ok http =>
          rw [h2] at h
          dsimp only at h ⊢
          cases h3 : pyGet (pyOr http (.obj [])) "method" with
          | error e => rw [h3] at h; cases h
          | ok m => exact ⟨m, rfl⟩

/-! ## Claim C1 -/

/-- An event whose `requestContext` is a string rather than a mapping: the
log-summary expression `event.get("requestContext", {}).get("stage")` then
raises before the `try` block is entered. -/
def badCtxEvent : Event := [("requestContext", .str "surprise")]

/-- C1 (counterexample).  The claim says every error arising while
processing the event — "including during logging, the OPTIONS check" — is
converted into a Response.  It is false: on an event whose `requestContext`
is not a mapping, the pre-`try` log phase raises `AttributeError`, which
propagates past the handler instead of becoming a Response. -/
theorem handler_raises_during_log_phase :
    handler badCtxEvent stOk [] =
      .error (.otherExc "AttributeError: object has no attribute get") := rfl

/-- C1 (amended).  On any event for which the pre-`try` logging/OPTIONS
phase does not raise (`logPhaseOk`), the handler returns exactly one
Response envelope built by `resp`, whatever the storage oracle does and
whatever error arises during normalization, routing, an operation, or a
storage call. -/
theorem handler_total_after_log_phase (ev : Event) (st : Store) (r : List Nat)
    (h : logPhaseOk ev = true) :
    ∃ s v t, handler ev st r = .ok (resp s v, t) := by
  have hlp : logPhase ev = .ok () := by
    unfold logPhaseOk at h
    cases hl : logPhase ev with
    | ok u => cases u; rfl
    | error e => rw [hl] at h; cases h
  obtain ⟨m, hm⟩ := logPhase_gives_rawMethod ev hlp
  unfold handler
  rw [hlp, hm]
  dsimp only
  by_cases hop : (pyEqStr m "OPTIONS" || pyEqStr (evGet ev "httpMethod") "OPTIONS") = true
  · rw [if_pos hop]; exact ⟨200, .obj [], [], rfl⟩
  · rw [if_neg hop]
    obtain ⟨s, v, t, hc⟩ :=
      catchExc_shape (routeInner ev st r)
        (fun x t hx => routeInner_shape ev st r x t hx)
    exact ⟨s, v, t, by rw [hc]⟩

/-- C1 (witness for the amended theorem): a concrete plain GET event passes
the log phase and produces a `resp`-built envelope. -/
theorem handler_total_after_log_phase_witness :
    logPhaseOk [(("httpMethod" : String), JValue.str "GET")] = true ∧
      ∃ s v t,
        handler [(("httpMethod" : String), JValue.str "GET")] stOk [] = .ok (resp s v, t) :=
  ⟨rfl, handler_total_after_log_phase [(("httpMethod" : String), JValue.str "GET")] stOk [] rfl⟩

/-! ## Claim C5 -/

/-- C5.  Whenever the raw method — read from the nested
`requestContext.http` shape or the legacy top-level `httpMethod` shape — is
`OPTIONS`, the handler returns 200 with an empty JSON object body,
regardless of everything else in the event, and issues no storage call
(empty trace): normalization, routing and the operations are bypassed.
(The nested-shape read must not itself raise, which is the `logPhaseOk`
hypothesis; it is implied whenever the event is one of the two gateway
shapes.) -/
theorem handler_options_short_circuit (ev : Event) (st : Store) (r : List Nat)
    (h : logPhaseOk ev = true)
    (hm : rawMethodNested ev = .ok (.str "OPTIONS") ∨
          evGet ev "httpMethod" = .str "OPTIONS") :
    handler ev st r = .ok (resp 200 (.obj []), []) := by
  have hlp : logPhase ev = .ok () := by
    unfold logPhaseOk at h
    cases hl : logPhase ev with
    | ok u => cases u; rfl
    | error e => rw [hl] at h; cases h
  obtain ⟨m, hmn⟩ := logPhase_gives_rawMethod ev hlp
  unfold handler
  rw [hlp, hmn]
  dsimp only
  have hcond : (pyEqStr m "OPTIONS" || pyEqStr (evGet ev "httpMethod") "OPTIONS") = true := by
    cases hm with
    | inl hl2 =>
        rw [hmn] at hl2
        cases hl2
        simp [pyEqStr]
    | inr hr2 =>
        rw [hr2]
        simp [pyEqStr]
  rw [if_pos hcond]

/-- C5 (witness): a legacy-shaped OPTIONS event to an arbitrary path. -/
theorem handler_options_short_circuit_witness :
    handler [(("httpMethod" : String), JValue.str "OPTIONS"),
             (("path" : String), JValue.str "/anything")] stOk [] =
      .ok (resp 200 (.obj []), []) :=
  handler_options_short_circuit _ stOk [] rfl (Or.inr rfl)

/-! ## Claims C7 and C8 -/

theorem update_item_status (i d : JValue) (st : Store) (x : Response) (t : List StoreCall)
    (h : update_item i d st = .ok (x, t)) :
    x.statusCode = 400 ∨ x.statusCode = 200 := by
  unfold update_item at h
  by_cases hi : truthy i
  · simp only [hi] at h
    cases d with
    | obj kvs =>
        simp only at h
        cases hp : st.putRes (("id", i) :: dropIdKey kvs) with
        | error e => rw [hp] at h; cases h
        | ok u => rw [hp] at h; cases h; right; rfl
    | null => cases h; left; rfl
    | bool b => cases h; left; rfl
    | int n => cases h; left; rfl
    | dec m s => cases h; left; rfl
    | float m e => cases h; left; rfl
    | str s => cases h; left; rfl
    | arr xs => cases h; left; rfl
  · simp only [eq_false_of_ne_true hi] at h; cases h; left; rfl

theorem delete_item_status (i : JValue) (st : Store) (x : Response) (t : List StoreCall)
    (h : delete_item i st = .ok (x, t)) :
    x.statusCode = 400 ∨ x.statusCode = 204 := by
  unfold delete_item at h
  by_cases hi : truthy i
  · simp only [hi] at h
    cases hd : st.delRes i with
    | error e => rw [hd] at h; cases h
    | ok u => rw [hd] at h; cases h; right; rfl
  · simp only [eq_false_of_ne_true hi] at h; cases h; left; rfl

/-- C7.  `read_item` returns 400 "Missing id" when the identifier is absent
(falsy), 404 "Not found" when the storage lookup yields no item, and 200
with the stored item otherwise (a stored item is a nonempty mapping, hence
truthy); and the 404 status can arise from neither `update_item` nor
`delete_item`. -/
theorem read_item_status_behavior (itemId : JValue) (st : Store) :
    (truthy itemId = false →
      read_item itemId st =
        .ok (resp 400 (.obj [("message", .str "Missing id")]), []))
  ∧ (truthy itemId = true → st.getRes itemId = .ok .null →
      read_item itemId st =
        .ok (resp 404 (.obj [("message", .str "Not found")]), [.get itemId]))
  ∧ (∀ item, truthy itemId = true → st.getRes itemId = .ok item →
      truthy item = true →
      read_item itemId st = .ok (resp 200 item, [.get itemId]))
  ∧ (∀ i d st2 x t, update_item i d st2 = .ok (x, t) → x.statusCode ≠ 404)
  ∧ (∀ i st2 x t, delete_item i st2 = .ok (x, t) → x.statusCode ≠ 404) := by
  refine ⟨?_, ?_, ?_, ?_, ?_⟩
  · intro hf
    unfold read_item
    rw [hf]
    rfl
  · intro ht hg
    unfold read_item
    rw [ht, hg]
    rfl
  · intro item ht hg hti
    unfold read_item
    rw [ht, hg]
    dsimp only
    rw [hti]
    rfl
  · intro i d st2 x t h
    rcases update_item_status i d st2 x t h with h4 | h4 <;> rw [h4] <;> decide
  · intro i st2 x t h
    rcases delete_item_status i st2 x t h with h4 | h4 <;> rw [h4] <;> decide

/-- C7 (witness): reading a never-written identifier from the empty store
yields 404 "Not found". -/
theorem read_item_status_behavior_witness :
    read_item (.str "ghost") stOk =
      .ok (resp 404 (.obj [("message", .str "Not found")]), [.get (.str "ghost")]) :=
  (read_item_status_behavior (.str "ghost") stOk).2.1 rfl rfl

/-- C8.  For a non-empty identifier, `delete_item` issues exactly the one
unconditional delete-by-identifier call and returns 204 with an empty body
whenever that delete succeeds; and the outcome depends only on the delete
primitive — two stores with the same `delRes` (in particular, one holding
an item under the identifier and one not) give identical results. -/
theorem delete_item_unconditional_204 (idStr : String) (st : Store)
    (h1 : idStr ≠ "") (h2 : st.delRes (.str idStr) = .ok ()) :
    delete_item (.str idStr) st =
      .ok (resp 204 (.obj []), [.del (.str idStr)])
  ∧ ∀ st2 : Store, st2.delRes = st.delRes →
      delete_item (.str idStr) st2 = delete_item (.str idStr) st := by
  have ht : truthy (.str idStr) = true := by
    simp [truthy, h1]
  constructor
  · unfold delete_item
    rw [ht, h2]
    rfl
  · intro st2 hd
    unfold delete_item
    rw [hd]

/-- C8 (witness): deleting `"a1"`, which the empty store does not hold,
returns 204 with an empty body after one delete call. -/
theorem delete_item_unconditional_204_witness :
    delete_item (.str "a1") stOk =
      .ok (resp 204 (.obj []), [.del (.str "a1")]) :=
  (delete_item_unconditional_204 "a1" stOk (by decide) rfl).1

/-! ## Claim C2 -/

theorem lookup_dropIdKey (kvs : List (String × JValue)) (k : String)
    (hk : k ≠ "id") : (dropIdKey kvs).lookup k = kvs.lookup k := by
  induction kvs with
  | nil => rfl
  | cons kv t ih =>
      obtain ⟨k0, v0⟩ := kv
      by_cases h0 : k0 = "id"
      · subst h0
        have hne : (k == "id") = false := by simp [hk]
        simp [dropIdKey, List.filter_cons, List.lookup, hne]
        exact ih
      · have hkeep : (k0 != "id") = true := by simp [h0]
        simp only [dropIdKey, List.filter_cons, hkeep, if_true]
        by_cases hkk : k = k0
        · subst hkk
          simp [List.lookup]
        · have hne : (k == k0) = false := by simp [hkk]
          simp only [List.lookup, hne]
          exact ih

/-- C2.  For a non-empty path identifier and a mapping body, `update_item`
returns 200 with the replacement item whose `id` field is the path-supplied
identifier — any `id` field in the body is discarded — and whose other
fields are exactly the body's (same keys, same values, in body order). -/
theorem update_item_path_id_wins (idStr : String) (kvs : List (String × JValue))
    (st : Store) (h1 : idStr ≠ "")
    (h2 : st.putRes (("id", .str idStr) :: dropIdKey kvs) = .ok ()) :
    update_item (.str idStr) (.obj kvs) st =
      .ok (resp 200 (.obj (("id", .str idStr) :: dropIdKey kvs)),
           [.put (("id", .str idStr) :: dropIdKey kvs)])
  ∧ (("id", .str idStr) :: dropIdKey kvs).lookup "id" = some (.str idStr)
  ∧ ∀ k, k ≠ "id" →
      (("id", .str idStr) :: dropIdKey kvs).lookup k = kvs.lookup k := by
  have ht : truthy (.str idStr) = true := by simp [truthy, h1]
  refine ⟨?_, ?_, ?_⟩
  · unfold update_item
    rw [ht]
    dsimp only
    rw [h2]
    rfl
  · simp [List.lookup]
  · intro k hk
    have hne : (k == "id") = false := by simp [hk]
    simp only [List.lookup, hne]
    exact lookup_dropIdKey kvs k hk

/-- C2 (witness): path id `"a1"` with body `{"id": "zzz", "name": "y"}`
yields 200 with `id: "a1"` and `name: "y"`. -/
theorem update_item_path_id_wins_witness :
    update_item (.str "a1") (.obj [("id", .str "zzz"), ("name", .str "y")]) stOk =
      .ok (resp 200 (.obj [("id", .str "a1"), ("name", .str "y")]),
           [.put [("id", .str "a1"), ("name", .str "y")]]) :=
  (update_item_path_id_wins "a1" [("id", .str "zzz"), ("name", .str "y")] stOk
    (by decide) rfl).1

/-! ## Claim C4 -/

/-- A "version 2"-style event declaring a deployment stage. -/
def stageEv (stg p : String) : Event :=
  [("requestContext", .obj [("stage", .str stg)]), ("rawPath", .str p)]

/-- An event with a raw path and no stage. -/
def plainEv (p : String) : Event := [("rawPath", .str p)]

/-- The stage-stripping transformation as performed on a matching path. -/
def stripStage (stg p : String) : String :=
  let q := strDrop p (stg.length + 1)
  if strStartsWith q "/" then q else "/" ++ q

theorem strUpper_empty : strUpper "" = "" := rfl

/-- C4.  Stage stripping in `normalize_event`: (i) with a declared non-empty
stage and a raw path starting with `/<stage>`, the normalized path is the
raw path with that prefix removed and a leading `/` re-added if the
remainder would not start with one; (ii) concretely, `/prod/items/42` with
stage `prod` normalizes to `/items/42`; (iii) an event without a stage
keeps its raw path; (iv) so does one whose path does not start with
`/<stage>`. -/
theorem normalize_event_stage_strip :
    (∀ stg p : String, stg ≠ "" → p ≠ "" → strStartsWith p ("/" ++ stg) = true →
      normalize_event (stageEv stg p) =
        .ok ("", .str (stripStage stg p), .obj [],
             idFromPath (strSplitSlash (stripStage stg p)) .null))
  ∧ normalize_event (stageEv "prod" "/prod/items/42") =
      .ok ("", .str "/items/42", .obj [], .str "42")
  ∧ (∀ p : String, p ≠ "" →
      normalize_event (plainEv p) =
        .ok ("", .str p, .obj [], idFromPath (strSplitSlash p) .null))
  ∧ (∀ stg p : String, p ≠ "" → strStartsWith p ("/" ++ stg) = false →
      normalize_event (stageEv stg p) =
        .ok ("", .str p, .obj [], idFromPath (strSplitSlash p) .null)) := by
  refine ⟨?_, by rfl, ?_, ?_⟩
  · intro stg p hstg hp hsw
    have hstg' : (stg != "") = true := by simp [hstg]
    have hp' : (p != "") = true := by simp [hp]
    simp [normalize_event, stageEv, evGetD, evGet, pyGetD, pyGet, pyOr, truthy,
      pyStr, pyStartsWith, pyLen, pySliceFrom, pySplitSlash, pyUpper, List.lookup,
      Option.getD, stripStage, hstg', hp', hsw, strUpper_empty]
  · intro p hp
    have hp' : (p != "") = true := by simp [hp]
    simp [normalize_event, plainEv, evGetD, evGet, pyGetD, pyGet, pyOr, truthy,
      pyStr, pyStartsWith, pyLen, pySliceFrom, pySplitSlash, pyUpper, List.lookup,
      Option.getD, hp', strUpper_empty]
  · intro stg p hp hsw
    have hp' : (p != "") = true := by simp [hp]
    by_cases hstg : stg = ""
    · subst hstg
      simp [normalize_event, stageEv, evGetD, evGet, pyGetD, pyGet, pyOr, truthy,
        pyStr, pyStartsWith, pyLen, pySliceFrom, pySplitSlash, pyUpper, List.lookup,
        Option.getD, hp', strUpper_empty]
    · have hstg' : (stg != "") = true := by simp [hstg]
      simp [normalize_event, stageEv, evGetD, evGet, pyGetD, pyGet, pyOr, truthy,
        pyStr, pyStartsWith, pyLen, pySliceFrom, pySplitSlash, pyUpper, List.lookup,
        Option.getD, hstg', hp', hsw, strUpper_empty]

/-- C4 (witness): the concrete stage-stripping instance via the first
conjunct. -/
theorem normalize_event_stage_strip_witness :
    normalize_event (stageEv "prod" "/prod/items/42") =
      .ok ("", .str "/items/42", .obj [], .str "42") :=
  normalize_event_stage_strip.1 "prod" "/prod/items/42" (by decide) (by decide) rfl

/-! ## Claim C10 -/

theorem idFromPath_len_ne_two (segs : List String) (i0 : JValue)
    (h : (segs.filter (fun q => q != "")).length ≠ 2) :
    idFromPath segs i0 = i0 := by
  unfold idFromPath
  rcases hf : segs.filter (fun q => q != "") with _ | ⟨a, _ | ⟨b, _ | ⟨c, t⟩⟩⟩
  · rfl
  · rfl
  · exact absurd (by rw [hf]; rfl) h
  · rfl

/-- A legacy-shaped event with a method and a path. -/
def legacyEv (m p : String) : Event :=
  [("httpMethod", .str m), ("path", .str p)]

/-- C10.  A GET, PUT or DELETE event whose path starts with `/items/` but
does not consist of exactly two non-empty segments (e.g. `/items/` or
`/items/a/b`), with no explicit path-parameter id, is still dispatched to
the read/update/delete operation with no identifier, and returns 400
"Missing id" — not the "Unsupported route" response — making no storage
call. -/
theorem handler_items_subpath_missing_id (m p : String) (st : Store) (r : List Nat)
    (hm : m = "GET" ∨ m = "PUT" ∨ m = "DELETE")
    (hp : strStartsWith p "/items/" = true)
    (hseg : ((strSplitSlash p).filter (fun q => q != "")).length ≠ 2) :
    handler (legacyEv m p) st r =
      .ok (resp 400 (.obj [("message", .str "Missing id")]), []) := by
  have hp' : (p != "") = true := by
    by_cases he : p = ""
    · subst he; exact absurd hp (by decide)
    · simp [he]
  have hne : (p == "/items") = false := by
    by_cases he : p = "/items"
    · subst he; exact absurd hp (by decide)
    · simp [he]
  have hid : idFromPath (strSplitSlash p) .null = .null :=
    idFromPath_len_ne_two (strSplitSlash p) .null hseg
  rcases hm with hm | hm | hm <;> subst hm <;>
    simp [handler, logPhase, rawMethodNested, routeInner, normalize_event, legacyEv,
      evGetD, evGet, pyGetD, pyGet, pyOr, truthy, pyStr, pyEqStr, pyStartsWith,
      pyLen, pySliceFrom, pySplitSlash, pyUpper, List.lookup, Option.getD,
      strUpper, hp, hp', hne, hid, catchExc, read_item, update_item, delete_item]

/-- C10 (witness): GET `/items/` (trailing slash, one non-empty segment)
returns 400 "Missing id". -/
theorem handler_items_subpath_missing_id_witness :
    handler (legacyEv "GET" "/items/") stOk [] =
      .ok (resp 400 (.obj [("message", .str "Missing id")]), []) :=
  handler_items_subpath_missing_id "GET" "/items/" stOk [] (Or.inl rfl) rfl (by decide)

/-! ## Claim C3 -/

/-- An event carrying only a body. -/
def bodyEv (s : String) : Event := [("body", .str s)]

/-- An event carrying a body flagged as base64-encoded. -/
def b64Ev (s : String) : Event :=
  [("body", .str s), ("isBase64Encoded", .bool true)]

/-- C3 (counterexample).  The claim says an undecodable base64 payload
yields the empty mapping; in fact `base64.b64decode` runs outside the
`try` around `json.loads`, so the body `"A"` (one data character, not a
multiple of four) raises `binascii.Error` out of the normalizer. -/
theorem normalize_event_errors_on_bad_base64 :
    normalize_event (b64Ev "A") =
      .error (.otherExc "binascii.Error: invalid base64-encoded string") := rfl

/-- C3 (amended).  Body decoding in the normalizer: any JSON parse failure
— including an empty or absent body — yields the empty mapping; a parsed
body is passed through; a base64-flagged body that decodes (base64, then
UTF-8) behaves exactly like the unencoded decoded body; but an undecodable
base64 payload raises an error out of the normalizer instead of yielding
the empty mapping. -/
theorem idFromPath_root : idFromPath (strSplitSlash "/") JValue.null = JValue.null := rfl

theorem normalize_event_body_decoding :
    (∀ s : String, ∀ e : PyErr, s ≠ "" → jsonLoads s = .error e →
      normalize_event (bodyEv s) = .ok ("", .str "/", .obj [], .null))
  ∧ normalize_event ([] : Event) = .ok ("", .str "/", .obj [], .null)
  ∧ normalize_event (bodyEv "") = .ok ("", .str "/", .obj [], .null)
  ∧ (∀ s : String, ∀ v : JValue, s ≠ "" → jsonLoads s = .ok v →
      normalize_event (bodyEv s) = .ok ("", .str "/", v, .null))
  ∧ (∀ s t : String, ∀ bs : List Nat, s ≠ "" →
      pyB64Decode (.str s) = .ok bs → pyUtf8Decode bs = .ok t →
      normalize_event (b64Ev s) = normalize_event (bodyEv t))
  ∧ (∀ s : String, ∀ e : PyErr, s ≠ "" → pyB64Decode (.str s) = .error e →
      normalize_event (b64Ev s) = .error e) := by
  refine ⟨?_, by rfl, by rfl, ?_, ?_, ?_⟩
  · intro s e hs hj
    have hs' : (s != "") = true := by simp [hs]
    simp [normalize_event, bodyEv, evGetD, evGet, pyGetD, pyGet, pyOr, truthy,
      pyStr, pyStartsWith, pyLen, pySliceFrom, pySplitSlash, pyUpper, List.lookup,
      Option.getD, strUpper, hs', hj, idFromPath_root]
  · intro s v hs hj
    have hs' : (s != "") = true := by simp [hs]
    simp [normalize_event, bodyEv, evGetD, evGet, pyGetD, pyGet, pyOr, truthy,
      pyStr, pyStartsWith, pyLen, pySliceFrom, pySplitSlash, pyUpper, List.lookup,
      Option.getD, strUpper, hs', hj, idFromPath_root]
  · intro s t bs hs hb hu
    have hs' : (s != "") = true := by simp [hs]
    by_cases ht : t = ""
    · subst ht
      simp [normalize_event, bodyEv, b64Ev, evGetD, evGet, pyGetD, pyGet, pyOr,
        truthy, pyStr, pyStartsWith, pyLen, pySliceFrom, pySplitSlash, pyUpper,
        List.lookup, Option.getD, strUpper, hs', hb, hu]
    · have ht' : (t != "") = true := by simp [ht]
      simp [normalize_event, bodyEv, b64Ev, evGetD, evGet, pyGetD, pyGet, pyOr,
        truthy, pyStr, pyStartsWith, pyLen, pySliceFrom, pySplitSlash, pyUpper,
        List.lookup, Option.getD, strUpper, hs', ht', hb, hu]
  · intro s e hs hb
    have hs' : (s != "") = true := by simp [hs]
    simp [normalize_event, b64Ev, evGetD, evGet, pyGetD, pyGet, pyOr, truthy,
      pyStr, pyStartsWith, pyLen, pySliceFrom, pySplitSlash, pyUpper, List.lookup,
      Option.getD, strUpper, hs', hb]

/-- C3 (witness for the amended theorem): the unparsable body `"notjson"`
yields the empty mapping. -/
theorem normalize_event_body_decoding_witness :
    normalize_event (bodyEv "notjson") = .ok ("", .str "/", .obj [], .null) :=
  normalize_event_body_decoding.1 "notjson"
    (.otherExc "json.JSONDecodeError: Expecting value") (by decide) rfl

/-! ## Claim C6 -/

theorem norm16_length (r : List Nat) : (norm16 r).length = 16 := by
  simp [norm16]

theorem maskAt_length (i : Nat) (bs : List Nat) :
    (maskAt i bs).length = bs.length := by
  induction bs generalizing i with
  | nil => rfl
  | cons b t ih => simp [maskAt, ih]

theorem bytesHex_length (bs : List Nat) : (bytesHex bs).length = 2 * bs.length := by
  induction bs with
  | nil => rfl
  | cons b t ih => simp [bytesHex, hexByte, List.flatMap_cons] at ih ⊢; omega

theorem hyphenate_length (l : List Char) (h : l.length = 32) :
    (hyphenate l).length = 36 := by
  simp [hyphenate, h]

theorem uuidStr_length (r : List Nat) : (uuidStr r).length = 36 := by
  unfold uuidStr
  show (hyphenate (bytesHex (maskAt 0 (norm16 r)))).length = 36
  rw [hyphenate_length]
  rw [bytesHex_length, maskAt_length, norm16_length]

theorem hexDigitChar_inj : ∀ a < 16, ∀ b < 16, hexDigitChar a = hexDigitChar b → a = b := by
  decide

theorem hexByte_inj (a b : Nat) (ha : a < 256) (hb : b < 256)
    (h : hexByte a = hexByte b) : a = b := by
  unfold hexByte at h
  have h1 : hexDigitChar (a / 16 % 16) = hexDigitChar (b / 16 % 16) := by
    injection h with h1 h2
  have h2 : hexDigitChar (a % 16) = hexDigitChar (b % 16) := by
    injection h with hx hy
    injection hy with h2
  have e1 : a / 16 % 16 = b / 16 % 16 :=
    hexDigitChar_inj _ (Nat.mod_lt _ (by omega)) _ (Nat.mod_lt _ (by omega)) h1
  have e2 : a % 16 = b % 16 :=
    hexDigitChar_inj _ (Nat.mod_lt _ (by omega)) _ (Nat.mod_lt _ (by omega)) h2
  omega

theorem bytesHex_inj : ∀ as bs : List Nat, (∀ x ∈ as, x < 256) →
    (∀ x ∈ bs, x < 256) → bytesHex as = bytesHex bs → as = bs := by
  intro as
  induction as with
  | nil =>
      intro bs _ _ h
      cases bs with
      | nil => rfl
      | cons b t => simp [bytesHex, hexByte, List.flatMap_cons] at h
  | cons a t ih =>
      intro bs ha hb h
      cases bs with
      | nil => simp [bytesHex, hexByte, List.flatMap_cons] at h
      | cons b u =>
          simp only [bytesHex, hexByte, List.flatMap_cons, List.cons_append,
            List.nil_append] at h
          obtain ⟨h1, h2, h3⟩ : hexDigitChar (a / 16 % 16) = hexDigitChar (b / 16 % 16) ∧
              hexDigitChar (a % 16) = hexDigitChar (b % 16) ∧
              t.flatMap hexByte = u.flatMap hexByte := by
            injection h with x1 y1
            injection y1 with x2 y2
            exact ⟨x1, x2, y2⟩
          have hab : a = b := by
            apply hexByte_inj a b (ha a (by simp)) (hb b (by simp))
            unfold hexByte
            rw [h1, h2]
          have htu : t = u := by
            apply ih u (fun x hx => ha x (by simp [hx])) (fun x hx => hb x (by simp [hx]))
            exact h3
          rw [hab, htu]

theorem maskAt_lt (bs : List Nat) (h : ∀ x ∈ bs, x < 256) :
    ∀ i, ∀ x ∈ maskAt i bs, x < 256 := by
  induction bs with
  | nil => intro i x hx; cases hx
  | cons b t ih =>
      intro i x hx
      simp only [maskAt, List.mem_cons] at hx
      rcases hx with hx | hx
      · subst hx
        have hb : b < 256 := h b (by simp)
        by_cases h6 : i = 6
        · simp [h6]; omega
        · by_cases h8 : i = 8
          · simp [h6, h8]; omega
          · simp [h6, h8]; omega
      · exact ih (fun x hx => h x (by simp [hx])) (i + 1) x hx

theorem norm16_lt (r : List Nat) : ∀ x ∈ norm16 r, x < 256 := by
  intro x hx
  simp only [norm16, List.mem_map] at hx
  obtain ⟨b, _, hb⟩ := hx
  omega

theorem glue5_inj (A B C D E Ap Bp Cp Dp Ep : List Char)
    (hA : A.length = 8) (hAp : Ap.length = 8)
    (hB : B.length = 4) (hBp : Bp.length = 4)
    (hC : C.length = 4) (hCp : Cp.length = 4)
    (hD : D.length = 4) (hDp : Dp.length = 4)
    (h : A ++ ('-' :: B) ++ ('-' :: C) ++ ('-' :: D) ++ ('-' :: E) =
         Ap ++ ('-' :: Bp) ++ ('-' :: Cp) ++ ('-' :: Dp) ++ ('-' :: Ep)) :
    A = Ap ∧ B = Bp ∧ C = Cp ∧ D = Dp ∧ E = Ep := by
  obtain ⟨e1, e2⟩ := List.append_inj h
    (by simp [hA, hAp, hB, hBp, hC, hCp, hD, hDp])
  injection e2 with _ eE
  obtain ⟨e3, e4⟩ := List.append_inj e1 (by simp [hA, hAp, hB, hBp, hC, hCp])
  injection e4 with _ eD
  obtain ⟨e5, e6⟩ := List.append_inj e3 (by simp [hA, hAp, hB, hBp])
  injection e6 with _ eC
  obtain ⟨e7, e8⟩ := List.append_inj e5 (by simp [hA, hAp])
  injection e8 with _ eB
  exact ⟨e7, eB, eC, eD, eE⟩

theorem hyphenate_inj (l1 l2 : List Char) (h1 : l1.length = 32)
    (h2 : l2.length = 32) (h : hyphenate l1 = hyphenate l2) : l1 = l2 := by
  unfold hyphenate at h
  obtain ⟨eA, eB, eC, eD, eE⟩ :=
    glue5_inj (l1.take 8) ((l1.drop 8).take 4) ((l1.drop 12).take 4)
      ((l1.drop 16).take 4) (l1.drop 20)
      (l2.take 8) ((l2.drop 8).take 4) ((l2.drop 12).take 4)
      ((l2.drop 16).take 4) (l2.drop 20)
      (by simp [h1]) (by simp [h2]) (by simp [h1]) (by simp [h2])
      (by simp [h1]) (by simp [h2]) (by simp [h1]) (by simp [h2]) h
  have d16 : l1.drop 16 = l2.drop 16 := by
    have r1 : l1.drop 16 = (l1.drop 16).take 4 ++ (l1.drop 16).drop 4 :=
      (List.take_append_drop 4 (l1.drop 16)).symm
    have r2 : l2.drop 16 = (l2.drop 16).take 4 ++ (l2.drop 16).drop 4 :=
      (List.take_append_drop 4 (l2.drop 16)).symm
    rw [r1, r2, eD]
    rw [List.drop_drop, List.drop_drop]
    rw [show (4 + 16 : Nat) = 20 from rfl] at *
    rw [eE]
  have d12 : l1.drop 12 = l2.drop 12 := by
    have r1 : l1.drop 12 = (l1.drop 12).take 4 ++ (l1.drop 12).drop 4 :=
      (List.take_append_drop 4 (l1.drop 12)).symm
    have r2 : l2.drop 12 = (l2.drop 12).take 4 ++ (l2.drop 12).drop 4 :=
      (List.take_append_drop 4 (l2.drop 12)).symm
    rw [r1, r2, eC, List.drop_drop, List.drop_drop]
    rw [show (4 + 12 : Nat) = 16 from rfl]
    rw [d16]
  have d8 : l1.drop 8 = l2.drop 8 := by
    have r1 : l1.drop 8 = (l1.drop 8).take 4 ++ (l1.drop 8).drop 4 :=
      (List.take_append_drop 4 (l1.drop 8)).symm
    have r2 : l2.drop 8 = (l2.drop 8).take 4 ++ (l2.drop 8).drop 4 :=
      (List.take_append_drop 4 (l2.drop 8)).symm
    rw [r1, r2, eB, List.drop_drop, List.drop_drop]
    rw [show (4 + 8 : Nat) = 12 from rfl]
    rw [d12]
  calc l1 = l1.take 8 ++ l1.drop 8 := (List.take_append_drop 8 l1).symm
    _ = l2.take 8 ++ l2.drop 8 := by rw [eA, d8]
    _ = l2 := List.take_append_drop 8 l2

/-- Distinct masked randomness yields distinct generated identifiers. -/
theorem uuidStr_inj (r rp : List Nat) (h : uuidStr r = uuidStr rp) :
    maskAt 0 (norm16 r) = maskAt 0 (norm16 rp) := by
  unfold uuidStr at h
  have hl : (hyphenate (bytesHex (maskAt 0 (norm16 r)))) =
      (hyphenate (bytesHex (maskAt 0 (norm16 rp)))) := by
    injection h
  have len1 : (bytesHex (maskAt 0 (norm16 r))).length = 32 := by
    rw [bytesHex_length, maskAt_length, norm16_length]
  have len2 : (bytesHex (maskAt 0 (norm16 rp))).length = 32 := by
    rw [bytesHex_length, maskAt_length, norm16_length]
  have hx := hyphenate_inj _ _ len1 len2 hl
  exact bytesHex_inj _ _ (maskAt_lt _ (norm16_lt r) 0) (maskAt_lt _ (norm16_lt rp) 0) hx

/-- C6.  `create_item` on a mapping body returns 201 with an item whose
`id` is the body's `id` when that value is truthy, and otherwise the
freshly generated `str(uuid.uuid4())` of this call's 16 random bytes — a
36-character (hence non-empty) string, distinct for calls whose masked
random bytes differ; all non-`id` body fields are carried verbatim; a
non-mapping body yields 400 "Invalid JSON". -/
theorem create_item_id_selection (kvs : List (String × JValue)) (st : Store)
    (r : List Nat) :
    (truthy ((kvs.lookup "id").getD .null) = true →
      st.putRes (("id", (kvs.lookup "id").getD .null) :: dropIdKey kvs) = .ok () →
      create_item (.obj kvs) st r =
        .ok (resp 201 (.obj (("id", (kvs.lookup "id").getD .null) :: dropIdKey kvs)),
             [.put (("id", (kvs.lookup "id").getD .null) :: dropIdKey kvs)]))
  ∧ (truthy ((kvs.lookup "id").getD .null) = false →
      st.putRes (("id", .str (uuidStr r)) :: dropIdKey kvs) = .ok () →
      create_item (.obj kvs) st r =
        .ok (resp 201 (.obj (("id", .str (uuidStr r)) :: dropIdKey kvs)),
             [.put (("id", .str (uuidStr r)) :: dropIdKey kvs)]))
  ∧ (uuidStr r).length = 36
  ∧ (∀ rp : List Nat, uuidStr r = uuidStr rp →
      maskAt 0 (norm16 r) = maskAt 0 (norm16 rp))
  ∧ (∀ x : JValue, ∀ k, k ≠ "id" →
      ((("id", x) :: dropIdKey kvs).lookup k = kvs.lookup k))
  ∧ (∀ v : JValue, v.isObj = false →
      create_item v st r =
        .ok (resp 400 (.obj [("message", .str "Invalid JSON")]), [])) := by
  refine ⟨?_, ?_, uuidStr_length r, fun rp => uuidStr_inj r rp, ?_, ?_⟩
  · intro ht hp
    unfold create_item
    dsimp only
    rw [show pyOr ((kvs.lookup "id").getD .null) (.str (uuidStr r)) =
          (kvs.lookup "id").getD .null by unfold pyOr; rw [ht]; rfl]
    rw [hp]
  · intro ht hp
    unfold create_item
    dsimp only
    rw [show pyOr ((kvs.lookup "id").getD .null) (.str (uuidStr r)) =
          .str (uuidStr r) by unfold pyOr; rw [ht]; rfl]
    rw [hp]
  · intro x k hk
    have hne : (k == "id") = false := by simp [hk]
    simp only [List.lookup, hne]
    exact lookup_dropIdKey kvs k hk
  · intro v hv
    cases v with
    | obj kvs2 => simp [JValue.isObj] at hv
    | null => rfl
    | bool b => rfl
    | int n => rfl
    | dec m s => rfl
    | float m e => rfl
    | str s => rfl
    | arr xs => rfl

/-- C6 (witness): a body without `id` gets the generated identifier of the
call's random bytes, here `List.range 16`; the other field is carried
verbatim. -/
theorem create_item_id_selection_witness :
    create_item (.obj [("name", .str "x")]) stOk (List.range 16) =
      .ok (resp 201 (.obj [("id", .str "00010203-0405-4607-8809-0a0b0c0d0e0f"),
                           ("name", .str "x")]),
           [.put [("id", .str "00010203-0405-4607-8809-0a0b0c0d0e0f"),
                  ("name", .str "x")]]) :=
  (create_item_id_selection [("name", .str "x")] stOk (List.range 16)).2.1 rfl rfl

/-! ## Claim C9: serializer output is valid JSON -/

mutual

/-- Size measure on values, counting one per node and one per list cell. -/
def jsize : JValue → Nat
  | .arr xs => 1 + jsizeL xs
  | .obj kvs => 1 + jsizeO kvs
  | _ => 1

def jsizeL : List JValue → Nat
  | [] => 0
  | x :: t => 1 + jsize x + jsizeL t

def jsizeO : List (String × JValue) → Nat
  | [] => 0
  | kv :: t => 1 + jsize kv.2 + jsizeO t

end

/-- Simultaneous induction over values, element lists and member lists of
the nested inductive `JValue`, obtained by strong induction on `jsize`. -/
theorem jvalue_induction (P : JValue → Prop) (Q : List JValue → Prop)
    (R : List (String × JValue) → Prop)
    (hnull : P .null) (hbool : ∀ b, P (.bool b)) (hint : ∀ n, P (.int n))
    (hdec : ∀ m s, P (.dec m s)) (hfloat : ∀ m e, P (.float m e))
    (hstr : ∀ s, P (.str s))
    (harr : ∀ xs, Q xs → P (.arr xs)) (hobj : ∀ kvs, R kvs → P (.obj kvs))
    (hqnil : Q []) (hqcons : ∀ x xs, P x → Q xs → Q (x :: xs))
    (hrnil : R []) (hrcons : ∀ k v t, P v → R t → R ((k, v) :: t)) :
    (∀ v, P v) ∧ (∀ xs, Q xs) ∧ (∀ kvs, R kvs) := by
  have main : ∀ n : Nat, (∀ v, jsize v < n → P v) ∧ (∀ xs, jsizeL xs < n → Q xs) ∧
      (∀ kvs, jsizeO kvs < n → R kvs) := by
    intro n
    induction n with
    | zero => exact ⟨fun v h => absurd h (by omega), fun xs h => by omega,
        fun kvs h => by omega⟩
    | succ n ih =>
        obtain ⟨ihv, ihl, iho⟩ := ih
        refine ⟨?_, ?_, ?_⟩
        · intro v hv
          cases v with
          | null => exact hnull
          | bool b => exact hbool b
          | int n => exact hint n
          | dec m s => exact hdec m s
          | float m e => exact hfloat m e
          | str s => exact hstr s
          | arr xs =>
              refine harr xs (ihl xs ?_)
              have : jsize (.arr xs) = 1 + jsizeL xs := rfl
              omega
          | obj kvs =>
              refine hobj kvs (iho kvs ?_)
              have : jsize (.obj kvs) = 1 + jsizeO kvs := rfl
              omega
        · intro xs hxs
          cases xs with
          | nil => exact hqnil
          | cons x t =>
              have hx : jsizeL (x :: t) = 1 + jsize x + jsizeL t := rfl
              exact hqcons x t (ihv x (by omega)) (ihl t (by omega))
        · intro kvs hkvs
          cases kvs with
          | nil => exact hrnil
          | cons kv t =>
              obtain ⟨k, v⟩ := kv
              have hx : jsizeO ((k, v) :: t) = 1 + jsize v + jsizeO t := rfl
              exact hrcons k v t (ihv v (by omega)) (iho t (by omega))
  refine ⟨fun v => (main (jsize v + 1)).1 v (by omega),
          fun xs => (main (jsizeL xs + 1)).2.1 xs (by omega),
          fun kvs => (main (jsizeO kvs + 1)).2.2 kvs (by omega)⟩

theorem isDigit10_digitChar10 : ∀ d < 10, isDigit10 (digitChar10 d) = true := by
  decide

theorem digitChar10_ne_zero : ∀ d < 10, d ≠ 0 → digitChar10 d ≠ '0' := by
  decide

theorem isDigit10_ne_special (c : Char) (h : isDigit10 c = true) :
    c ≠ '-' ∧ c ≠ '.' ∧ c ≠ 'e' ∧ c ≠ 'E' ∧ isJsonWs c = false ∧
      c ≠ '{' ∧ c ≠ '[' ∧ c ≠ '"' ∧ c ≠ 't' ∧ c ≠ 'f' ∧ c ≠ 'n' := by
  simp only [isDigit10, decide_eq_true_eq] at h
  refine ⟨?_, ?_, ?_, ?_, ?_, ?_, ?_, ?_, ?_, ?_, ?_⟩
  · intro hc; subst hc; revert h; decide
  · intro hc; subst hc; revert h; decide
  · intro hc; subst hc; revert h; decide
  · intro hc; subst hc; revert h; decide
  · simp only [isJsonWs, decide_eq_false_iff_not]
    rintro (rfl | rfl | rfl | rfl) <;> revert h <;> decide
  · intro hc; subst hc; revert h; decide
  · intro hc; subst hc; revert h; decide
  · intro hc; subst hc; revert h; decide
  · intro hc; subst hc; revert h; decide
  · intro hc; subst hc; revert h; decide
  · intro hc; subst hc; revert h; decide

theorem natChars_ne_nil (n : Nat) : natChars n ≠ [] := by
  unfold natChars
  by_cases h : n = 0
  · simp [h]
  · simp only [h, if_false]
    intro hx
    rw [List.map_eq_nil_iff, List.reverse_eq_nil_iff] at hx
    exact (Nat.digits_ne_nil_iff_ne_zero.mpr h) hx

theorem natChars_digits (n : Nat) : ∀ c ∈ natChars n, isDigit10 c = true := by
  unfold natChars
  by_cases h : n = 0
  · simp [h]
    decide
  · simp only [h, if_false]
    intro c hc
    rw [List.mem_map] at hc
    obtain ⟨d, hd, hdc⟩ := hc
    rw [List.mem_reverse] at hd
    have hlt : d < 10 := Nat.digits_lt_base (by norm_num) hd
    rw [← hdc]
    exact isDigit10_digitChar10 d hlt

theorem natChars_no_leading_zero (n : Nat) (h : 1 < (natChars n).length) :
    (natChars n).head? ≠ some '0' := by
  unfold natChars at h ⊢
  by_cases h0 : n = 0
  · simp [h0] at h
  · simp only [h0, if_false] at h ⊢
    have hne : Nat.digits 10 n ≠ [] := Nat.digits_ne_nil_iff_ne_zero.mpr h0
    rw [List.head?_map, List.head?_reverse]
    rw [List.getLast?_eq_getLast _ hne]
    simp only [Option.map_some']
    intro hx
    injection hx with hx
    have hlast0 : (Nat.digits 10 n).getLast hne ≠ 0 :=
      Nat.getLast_digit_ne_zero 10 h0
    have hlast10 : (Nat.digits 10 n).getLast hne < 10 :=
      Nat.digits_lt_base (by norm_num) (List.getLast_mem hne)
    exact digitChar10_ne_zero _ hlast10 hlast0 hx

theorem takeWhile_append_stop (p : Char → Bool) :
    ∀ l r : List Char, (∀ c ∈ l, p c = true) →
      (∀ c, r.head? = some c → p c = false) →
      (l ++ r).takeWhile p = l ∧ (l ++ r).dropWhile p = r := by
  intro l
  induction l with
  | nil =>
      intro r _ hr
      cases r with
      | nil => exact ⟨rfl, rfl⟩
      | cons c t =>
          have := hr c rfl
          simp [List.takeWhile_cons, List.dropWhile_cons, this]
  | cons a l ih =>
      intro r hl hr
      have ha : p a = true := hl a (by simp)
      obtain ⟨h1, h2⟩ := ih r (fun c hc => hl c (by simp [hc])) hr
      simp [List.takeWhile_cons, List.dropWhile_cons, ha, h1, h2]

/-- The characters that may legitimately follow a serialized value. -/
def stopOk (rest : List Char) : Prop :=
  rest = [] ∨ ∃ c t, rest = c :: t ∧ (c = ',' ∨ c = ']' ∨ c = '}')

theorem stopOk_head_not_digit (rest : List Char) (h : stopOk rest) :
    ∀ c, rest.head? = some c → isDigit10 c = false := by
  rcases h with h | ⟨c, t, rfl, hc⟩
  · subst h; intro c hc; cases hc
  · intro d hd
    injection hd with hd
    subst hd
    rcases hc with rfl | rfl | rfl <;> decide

theorem stopOk_cases (rest : List Char) (hr : stopOk rest) :
    rest = [] ∨ ∃ c t, rest = c :: t ∧ c ≠ '.' ∧ c ≠ 'e' ∧ c ≠ 'E' ∧
      isDigit10 c = false ∧ isJsonWs c = false := by
  rcases hr with h | ⟨c, t, rfl, hc⟩
  · exact Or.inl h
  · refine Or.inr ⟨c, t, rfl, ?_, ?_, ?_, ?_, ?_⟩ <;>
      rcases hc with rfl | rfl | rfl <;> decide

theorem parseNum_digits (ds rest : List Char)
    (hdig : ∀ c ∈ ds, isDigit10 c = true) (hne : ds ≠ [])
    (hlz : ¬(1 < ds.length ∧ ds.head? = some '0')) (hr : stopOk rest) :
    parseNum (ds ++ rest) = some (.int (digitsVal ds : Nat), rest) := by
  obtain ⟨c, t, rfl⟩ := List.exists_cons_of_ne_nil hne
  have hcdig : isDigit10 c = true := hdig c (by simp)
  have hcne : c ≠ '-' := (isDigit10_ne_special c hcdig).1
  obtain ⟨htw, hdw⟩ := takeWhile_append_stop isDigit10 (c :: t) rest hdig
    (stopOk_head_not_digit rest hr)
  simp only [parseNum, List.cons_append]
  rw [List.cons_append] at htw hdw
  simp only [htw, hdw, if_neg hcne]
  simp only [List.isEmpty_cons, Bool.false_eq_true, if_false, if_neg hlz]
  rcases stopOk_cases rest hr with rfl | ⟨r, t2, rfl, hdot, he, hE, _, _⟩
  · simp
  · simp only [if_neg hdot]
    have : ¬(r = 'e' ∨ r = 'E') := by rintro (rfl | rfl) <;> simp_all
    simp [this]

theorem parseNum_neg_digits (ds rest : List Char)
    (hdig : ∀ c ∈ ds, isDigit10 c = true) (hne : ds ≠ [])
    (hlz : ¬(1 < ds.length ∧ ds.head? = some '0')) (hr : stopOk rest) :
    parseNum ('-' :: (ds ++ rest)) = some (.int (-(digitsVal ds : Int)), rest) := by
  obtain ⟨c, t, rfl⟩ := List.exists_cons_of_ne_nil hne
  obtain ⟨htw, hdw⟩ := takeWhile_append_stop isDigit10 (c :: t) rest hdig
    (stopOk_head_not_digit rest hr)
  simp only [parseNum, List.cons_append]
  rw [List.cons_append] at htw hdw
  simp only [htw, hdw, eq_self_iff_true, if_true]
  simp only [List.isEmpty_cons, Bool.false_eq_true, if_false, if_neg hlz]
  rcases stopOk_cases rest hr with rfl | ⟨r, t2, rfl, hdot, he, hE, _, _⟩
  · simp
  · simp only [if_neg hdot]
    have : ¬(r = 'e' ∨ r = 'E') := by rintro (rfl | rfl) <;> simp_all
    simp [this]

theorem parseNum_digits_frac (ds fs rest : List Char)
    (hdig : ∀ c ∈ ds, isDigit10 c = true) (hne : ds ≠ [])
    (hlz : ¬(1 < ds.length ∧ ds.head? = some '0'))
    (hfdig : ∀ c ∈ fs, isDigit10 c = true) (hfne : fs ≠ [])
    (hr : stopOk rest) :
    parseNum (ds ++ '.' :: (fs ++ rest)) =
      some (.float (digitsVal (ds ++ fs) : Nat) (-(fs.length : Int)), rest) := by
  obtain ⟨c, t, rfl⟩ := List.exists_cons_of_ne_nil hne
  have hcdig : isDigit10 c = true := hdig c (by simp)
  have hcne : c ≠ '-' := (isDigit10_ne_special c hcdig).1
  obtain ⟨htw, hdw⟩ := takeWhile_append_stop isDigit10 (c :: t) ('.' :: (fs ++ rest))
    hdig (by intro d hd; injection hd with hd; subst hd; decide)
  obtain ⟨htw2, hdw2⟩ := takeWhile_append_stop isDigit10 fs rest hfdig
    (stopOk_head_not_digit rest hr)
  have hfE : fs.isEmpty = false := by
    cases fs with
    | nil => exact absurd rfl hfne
    | cons a b => rfl
  simp only [parseNum, List.cons_append]
  rw [List.cons_append] at htw hdw
  simp only [htw, hdw, if_neg hcne]
  simp only [List.isEmpty_cons, Bool.false_eq_true, if_false, if_neg hlz,
    eq_self_iff_true, if_true]
  simp only [htw2, hdw2, hfE]
  rcases stopOk_cases rest hr with rfl | ⟨r, t2, rfl, hdot, he, hE, _, _⟩
  · simp
  · have : ¬(r = 'e' ∨ r = 'E') := by rintro (rfl | rfl) <;> simp_all
    simp [this, hfE]

theorem parseNum_neg_digits_frac (ds fs rest : List Char)
    (hdig : ∀ c ∈ ds, isDigit10 c = true) (hne : ds ≠ [])
    (hlz : ¬(1 < ds.length ∧ ds.head? = some '0'))
    (hfdig : ∀ c ∈ fs, isDigit10 c = true) (hfne : fs ≠ [])
    (hr : stopOk rest) :
    parseNum ('-' :: (ds ++ '.' :: (fs ++ rest))) =
      some (.float (-(digitsVal (ds ++ fs) : Int)) (-(fs.length : Int)), rest) := by
  obtain ⟨c, t, rfl⟩ := List.exists_cons_of_ne_nil hne
  obtain ⟨htw, hdw⟩ := takeWhile_append_stop isDigit10 (c :: t) ('.' :: (fs ++ rest))
    hdig (by intro d hd; injection hd with hd; subst hd; decide)
  obtain ⟨htw2, hdw2⟩ := takeWhile_append_stop isDigit10 fs rest hfdig
    (stopOk_head_not_digit rest hr)
  have hfE : fs.isEmpty = false := by
    cases fs with
    | nil => exact absurd rfl hfne
    | cons a b => rfl
  simp only [parseNum, List.cons_append]
  rw [List.cons_append] at htw hdw
  simp only [htw, hdw, eq_self_iff_true, if_true]
  simp only [List.isEmpty_cons, Bool.false_eq_true, if_false, if_neg hlz,
    eq_self_iff_true, if_true]
  simp only [htw2, hdw2, hfE]
  rcases stopOk_cases rest hr with rfl | ⟨r, t2, rfl, hdot, he, hE, _, _⟩
  · simp
  · have : ¬(r = 'e' ∨ r = 'E') := by rintro (rfl | rfl) <;> simp_all
    simp [this, hfE]

theorem head?_take_pos (l : List Char) (m : Nat) (hm : 0 < m) :
    (l.take m).head? = l.head? := by
  cases l with
  | nil => simp
  | cons c t =>
      cases m with
      | zero => omega
      | succ j => simp [List.take_succ_cons]

theorem floatAbsChars_struct (n : Nat) (e : Int) :
    ∃ a b, floatAbsChars n e = a ++ '.' :: b ∧ a ≠ [] ∧ b ≠ [] ∧
      (∀ c ∈ a, isDigit10 c = true) ∧ (∀ c ∈ b, isDigit10 c = true) ∧
      ¬(1 < a.length ∧ a.head? = some '0') := by
  unfold floatAbsChars
  by_cases he : e ≥ 0
  · refine ⟨natChars (n * 10 ^ e.toNat), ['0'], ?_, natChars_ne_nil _, by simp,
      natChars_digits _, ?_, ?_⟩
    · simp [he]
    · intro c hc
      simp only [List.mem_singleton] at hc
      subst hc; decide
    · rintro ⟨h1, h2⟩
      exact natChars_no_leading_zero _ h1 h2
  · by_cases hlen : (natChars n).length ≤ (-e).toNat
    · refine ⟨['0'], List.replicate ((-e).toNat - (natChars n).length) '0' ++ natChars n,
        ?_, by simp, ?_, ?_, ?_, ?_⟩
      · simp [he, hlen]
      · intro hx
        rw [List.append_eq_nil] at hx
        exact natChars_ne_nil n hx.2
      · intro c hc
        simp only [List.mem_singleton] at hc
        subst hc; decide
      · intro c hc
        rw [List.mem_append] at hc
        rcases hc with hc | hc
        · rw [List.eq_of_mem_replicate hc]; decide
        · exact natChars_digits n c hc
      · rintro ⟨h1, _⟩
        simp at h1
    · refine ⟨(natChars n).take ((natChars n).length - (-e).toNat),
        (natChars n).drop ((natChars n).length - (-e).toNat), ?_, ?_, ?_, ?_, ?_, ?_⟩
      · simp [he, hlen]
      · intro hx
        have := congrArg List.length hx
        simp only [List.length_take, List.length_nil] at this
        omega
      · intro hx
        have := congrArg List.length hx
        simp only [List.length_drop, List.length_nil] at this
        have hk : 1 ≤ (-e).toNat := by omega
        omega
      · intro c hc
        exact natChars_digits n c (List.mem_of_mem_take hc)
      · intro c hc
        exact natChars_digits n c (List.mem_of_mem_drop hc)
      · rintro ⟨h1, h2⟩
        simp only [List.length_take] at h1
        have hlen2 : 1 < (natChars n).length := by omega
        have hpos : 0 < (natChars n).length - (-e).toNat := by omega
        rw [head?_take_pos _ _ hpos] at h2
        exact natChars_no_leading_zero n hlen2 h2

theorem natChars_no_lz (n : Nat) :
    ¬(1 < (natChars n).length ∧ (natChars n).head? = some '0') := by
  rintro ⟨h1, h2⟩
  exact natChars_no_leading_zero n h1 h2

theorem parseNum_intChars (i : Int) (rest : List Char) (hr : stopOk rest) :
    ∃ v, parseNum (intChars i ++ rest) = some (v, rest) := by
  unfold intChars
  by_cases hi : i < 0
  · rw [if_pos hi, List.cons_append]
    exact ⟨_, parseNum_neg_digits _ _ (natChars_digits _) (natChars_ne_nil _)
      (natChars_no_lz _) hr⟩
  · rw [if_neg hi]
    exact ⟨_, parseNum_digits _ _ (natChars_digits _) (natChars_ne_nil _)
      (natChars_no_lz _) hr⟩

theorem parseNum_floatChars (m e : Int) (rest : List Char) (hr : stopOk rest) :
    ∃ v, parseNum (floatChars m e ++ rest) = some (v, rest) := by
  unfold floatChars
  by_cases hm : m < 0
  · rw [if_pos hm]
    obtain ⟨a, b, hab, ha, hb, hadig, hbdig, halz⟩ := floatAbsChars_struct m.natAbs e
    rw [hab, List.cons_append]
    have hassoc : (a ++ '.' :: b) ++ rest = a ++ '.' :: (b ++ rest) := by
      rw [List.append_assoc]; rfl
    rw [hassoc]
    exact ⟨_, parseNum_neg_digits_frac a b rest hadig ha halz hbdig hb hr⟩
  · rw [if_neg hm]
    obtain ⟨a, b, hab, ha, hb, hadig, hbdig, halz⟩ := floatAbsChars_struct m.toNat e
    rw [hab]
    have hassoc : (a ++ '.' :: b) ++ rest = a ++ '.' :: (b ++ rest) := by
      rw [List.append_assoc]; rfl
    rw [hassoc]
    exact ⟨_, parseNum_digits_frac a b rest hadig ha halz hbdig hb hr⟩

theorem hexVal_hexDigitChar : ∀ d < 16, hexVal (hexDigitChar d) = some d := by
  decide

theorem char_valid_nat (c : Char) :
    c.toNat < 55296 ∨ (57343 < c.toNat ∧ c.toNat < 1114112) := by
  have h := c.valid
  rcases h with h | h
  · left
    exact h
  · right
    exact h

theorem parseStrAux_quote (fuel : Nat) (acc cs : List Char) :
    parseStrAux (fuel + 1) acc ('"' :: cs) = some (acc.reverse, cs) := rfl

theorem parseStrAux_simple (fuel : Nat) (acc cs : List Char) (e c2 : Char)
    (h : simpleEsc e = some c2) (hne : e ≠ 'u') :
    parseStrAux (fuel + 1) acc ('\\' :: e :: cs) =
      parseStrAux fuel (c2 :: acc) cs := by
  simp only [parseStrAux, if_true]
  rw [if_neg hne, h, if_neg (show ¬('\\' : Char) = '"' by decide)]

theorem parseStrAux_plain (fuel : Nat) (acc cs : List Char) (c : Char)
    (h1 : c ≠ '"') (h2 : c ≠ '\\') (h3 : ¬c.toNat < 32) :
    parseStrAux (fuel + 1) acc (c :: cs) = parseStrAux fuel (c :: acc) cs := by
  simp only [parseStrAux]
  rw [if_neg h1, if_neg h2, if_neg h3]

theorem hex4Val_hex4 (n : Nat) (cs : List Char) :
    hex4Val (hex4 n ++ cs) = some (n % 65536, cs) := by
  simp only [hex4, List.cons_append, List.nil_append, hex4Val]
  rw [hexVal_hexDigitChar _ (Nat.mod_lt _ (by omega)),
      hexVal_hexDigitChar _ (Nat.mod_lt _ (by omega)),
      hexVal_hexDigitChar _ (Nat.mod_lt _ (by omega)),
      hexVal_hexDigitChar _ (Nat.mod_lt _ (by omega))]
  have : n / 4096 % 16 * 4096 + n / 256 % 16 * 256 + n / 16 % 16 * 16 + n % 16
      = n % 65536 := by omega
  simp [this]

theorem parseStrAux_u_bmp (fuel : Nat) (acc cs : List Char) (n : Nat)
    (hn : n < 65536)
    (hs1 : ¬(55296 ≤ n ∧ n < 56320)) (hs2 : ¬(56320 ≤ n ∧ n < 57344)) :
    parseStrAux (fuel + 1) acc ('\\' :: 'u' :: (hex4 n ++ cs)) =
      parseStrAux fuel (Char.ofNat n :: acc) cs := by
  simp only [parseStrAux, if_true]
  rw [hex4Val_hex4, Nat.mod_eq_of_lt hn]
  try dsimp only
  rw [if_neg hs1, if_neg hs2, if_neg (show ¬('\\' : Char) = '"' by decide)]

theorem parseStrAux_u_pair (fuel : Nat) (acc cs : List Char) (hi lo : Nat)
    (hhi : 55296 ≤ hi ∧ hi < 56320) (hlo : 56320 ≤ lo ∧ lo < 57344) :
    parseStrAux (fuel + 1) acc
        ('\\' :: 'u' :: (hex4 hi ++ ('\\' :: 'u' :: (hex4 lo ++ cs)))) =
      parseStrAux fuel
        (Char.ofNat (65536 + (hi - 55296) * 1024 + (lo - 56320)) :: acc) cs := by
  simp only [parseStrAux, if_true]
  rw [hex4Val_hex4, Nat.mod_eq_of_lt (show hi < 65536 by omega)]
  try dsimp only
  rw [if_pos hhi]
  try dsimp only
  rw [hex4Val_hex4, Nat.mod_eq_of_lt (show lo < 65536 by omega)]
  try dsimp only
  rw [if_pos hlo]
  try rw [if_neg (show ¬('\\' : Char) = '"' by decide)]
  try rfl

theorem escChar_length_pos (c : Char) : 0 < (escChar c).length := by
  unfold escChar
  repeat' split
  all_goals simp [hex4]

theorem escList_length_ge (s : List Char) : s.length ≤ (escList s).length := by
  induction s with
  | nil => simp [escList]
  | cons c t ih =>
      have h1 : escList (c :: t) = escChar c ++ escList t := by
        simp [escList, List.flatMap_cons]
      rw [h1, List.length_append, List.length_cons]
      have := escChar_length_pos c
      omega

theorem parseStrAux_esc : ∀ (s : List Char) (fuel : Nat) (acc rest : List Char),
    s.length < fuel →
    ∃ out, parseStrAux fuel acc (escList s ++ '"' :: rest) = some (out, rest) := by
  intro s
  induction s with
  | nil =>
      intro fuel acc rest hf
      cases fuel with
      | zero => omega
      | succ f =>
          exact ⟨acc.reverse, by
            simp only [escList, List.flatMap_nil, List.nil_append]
            exact parseStrAux_quote f acc rest⟩
  | cons c s ih =>
      intro fuel acc rest hf
      cases fuel with
      | zero => omega
      | succ f =>
          have hf2 : s.length < f := by
            simp only [List.length_cons] at hf
            omega
          have hesc : escList (c :: s) = escChar c ++ escList s := by
            simp [escList, List.flatMap_cons]
          rw [hesc, List.append_assoc]
          by_cases h1 : c = '"'
          · subst h1
            rw [show escChar '"' = ['\\', '"'] from rfl]
            obtain ⟨out, hout⟩ := ih f ('"' :: acc) rest hf2
            refine ⟨out, ?_⟩
            rw [List.cons_append, List.cons_append, List.nil_append,
              parseStrAux_simple f _ _ '"' '"' rfl (by decide)]
            exact hout
          · by_cases h2 : c = '\\'
            · subst h2
              rw [show escChar '\\' = ['\\', '\\'] from rfl]
              obtain ⟨out, hout⟩ := ih f ('\\' :: acc) rest hf2
              refine ⟨out, ?_⟩
              rw [List.cons_append, List.cons_append, List.nil_append,
                parseStrAux_simple f _ _ '\\' '\\' rfl (by decide)]
              exact hout
            · by_cases h3 : c = '\n'
              · subst h3
                rw [show escChar '\n' = ['\\', 'n'] from rfl]
                obtain ⟨out, hout⟩ := ih f ('\n' :: acc) rest hf2
                refine ⟨out, ?_⟩
                rw [List.cons_append, List.cons_append, List.nil_append,
                  parseStrAux_simple f _ _ 'n' '\n' rfl (by decide)]
                exact hout
              · by_cases h4 : c = '\t'
                · subst h4
                  rw [show escChar '\t' = ['\\', 't'] from rfl]
                  obtain ⟨out, hout⟩ := ih f ('\t' :: acc) rest hf2
                  refine ⟨out, ?_⟩
                  rw [List.cons_append, List.cons_append, List.nil_append,
                    parseStrAux_simple f _ _ 't' '\t' rfl (by decide)]
                  exact hout
                · by_cases h5 : c = '\x0d'
                  · subst h5
                    rw [show escChar '\x0d' = ['\\', 'r'] from rfl]
                    obtain ⟨out, hout⟩ := ih f ('\x0d' :: acc) rest hf2
                    refine ⟨out, ?_⟩
                    rw [List.cons_append, List.cons_append, List.nil_append,
                      parseStrAux_simple f _ _ 'r' '\x0d' rfl (by decide)]
                    exact hout
                  · by_cases h6 : c = Char.ofNat 8
                    · subst h6
                      rw [show escChar (Char.ofNat 8) = ['\\', 'b'] from rfl]
                      obtain ⟨out, hout⟩ := ih f (Char.ofNat 8 :: acc) rest hf2
                      refine ⟨out, ?_⟩
                      rw [List.cons_append, List.cons_append, List.nil_append,
                        parseStrAux_simple f _ _ 'b' (Char.ofNat 8) rfl (by decide)]
                      exact hout
                    · by_cases h7 : c = Char.ofNat 12
                      · subst h7
                        rw [show escChar (Char.ofNat 12) = ['\\', 'f'] from rfl]
                        obtain ⟨out, hout⟩ := ih f (Char.ofNat 12 :: acc) rest hf2
                        refine ⟨out, ?_⟩
                        rw [List.cons_append, List.cons_append, List.nil_append,
                          parseStrAux_simple f _ _ 'f' (Char.ofNat 12) rfl (by decide)]
                        exact hout
                      · by_cases h8 : c.toNat < 32 ∨ 126 < c.toNat
                        · by_cases h9 : c.toNat < 65536
                          · simp only [escChar, if_neg h1, if_neg h2, if_neg h3,
                              if_neg h4, if_neg h5, if_neg h6, if_neg h7,
                              if_pos h8, if_pos h9]
                            obtain ⟨out, hout⟩ := ih f (Char.ofNat c.toNat :: acc) rest hf2
                            refine ⟨out, ?_⟩
                            have hval := char_valid_nat c
                            simp only [List.cons_append]
                            rw [parseStrAux_u_bmp f acc (escList s ++ '"' :: rest)
                              c.toNat h9 (by omega) (by omega)]
                            exact hout
                          · simp only [escChar, if_neg h1, if_neg h2, if_neg h3,
                              if_neg h4, if_neg h5, if_neg h6, if_neg h7,
                              if_pos h8, if_neg h9]
                            have hval := char_valid_nat c
                            have hup : c.toNat < 1114112 := by omega
                            obtain ⟨out, hout⟩ := ih f
                              (Char.ofNat (65536 + ((c.toNat - 65536) / 1024) * 1024 +
                                ((c.toNat - 65536) % 1024)) :: acc) rest hf2
                            refine ⟨out, ?_⟩
                            simp only [List.append_assoc, List.cons_append]
                            rw [parseStrAux_u_pair f acc (escList s ++ '"' :: rest)
                              (55296 + (c.toNat - 65536) / 1024)
                              (56320 + (c.toNat - 65536) % 1024) (by omega) (by omega)]
                            have harg : 55296 + (c.toNat - 65536) / 1024 - 55296 =
                                (c.toNat - 65536) / 1024 := by omega
                            have harg2 : 56320 + (c.toNat - 65536) % 1024 - 56320 =
                                (c.toNat - 65536) % 1024 := by omega
                            rw [harg, harg2]
                            exact hout
                        · simp only [escChar, if_neg h1, if_neg h2, if_neg h3,
                            if_neg h4, if_neg h5, if_neg h6, if_neg h7, if_neg h8]
                          obtain ⟨out, hout⟩ := ih f (c :: acc) rest hf2
                          refine ⟨out, ?_⟩
                          rw [List.cons_append, List.nil_append,
                            parseStrAux_plain f _ _ _ h1 h2 (by omega)]
                          exact hout

theorem isDigit10_ne_brackets (c : Char) (h : isDigit10 c = true) :
    c ≠ ']' ∧ c ≠ '}' := by
  simp only [isDigit10, decide_eq_true_eq] at h
  constructor
  · intro hc; subst hc; revert h; decide
  · intro hc; subst hc; revert h; decide

theorem skipWs_not_ws (c : Char) (t : List Char) (h : isJsonWs c = false) :
    skipWs (c :: t) = c :: t := by
  simp [skipWs, List.dropWhile_cons, h]

theorem skipWs_cons_ws (c : Char) (t : List Char) (h : isJsonWs c = true) :
    skipWs (c :: t) = skipWs t := by
  simp [skipWs, List.dropWhile_cons, h]

theorem parseVal_ws_congr (fuel : Nat) (cs cs2 : List Char)
    (h : skipWs cs = skipWs cs2) : parseVal fuel cs = parseVal fuel cs2 := by
  cases fuel with
  | zero => rfl
  | succ f => simp only [parseVal, h]

theorem parseElems_ws (fuel : Nat) (c : Char) (cs : List Char)
    (acc : List JValue) (h : isJsonWs c = true) :
    parseElems fuel (c :: cs) acc = parseElems fuel cs acc := by
  cases fuel with
  | zero => rfl
  | succ f =>
      simp only [parseElems]
      rw [parseVal_ws_congr f (c :: cs) cs (skipWs_cons_ws c cs h)]

theorem intChars_head (i : Int) :
    ∃ c t, intChars i = c :: t ∧ (c = '-' ∨ isDigit10 c = true) := by
  unfold intChars
  by_cases hi : i < 0
  · exact ⟨'-', natChars i.natAbs, by rw [if_pos hi], Or.inl rfl⟩
  · rw [if_neg hi]
    obtain ⟨c, t, hct⟩ := List.exists_cons_of_ne_nil (natChars_ne_nil i.toNat)
    exact ⟨c, t, hct, Or.inr (natChars_digits _ c (by rw [hct]; simp))⟩

theorem floatChars_head (m e : Int) :
    ∃ c t, floatChars m e = c :: t ∧ (c = '-' ∨ isDigit10 c = true) := by
  unfold floatChars
  by_cases hm : m < 0
  · exact ⟨'-', floatAbsChars m.natAbs e, by rw [if_pos hm], Or.inl rfl⟩
  · rw [if_neg hm]
    obtain ⟨a, b, hab, ha, _, hadig, _, _⟩ := floatAbsChars_struct m.toNat e
    obtain ⟨c, t, hct⟩ := List.exists_cons_of_ne_nil ha
    refine ⟨c, t ++ '.' :: b, ?_, Or.inr (hadig c (by rw [hct]; simp))⟩
    rw [hab, hct, List.cons_append]

theorem numHead_props (c : Char) (h : c = '-' ∨ isDigit10 c = true) :
    isJsonWs c = false ∧ c ≠ '{' ∧ c ≠ '[' ∧ c ≠ '"' ∧ c ≠ 't' ∧ c ≠ 'f' ∧
      c ≠ 'n' ∧ c ≠ ']' ∧ c ≠ '}' := by
  rcases h with rfl | h
  · refine ⟨by decide, ?_, ?_, ?_, ?_, ?_, ?_, ?_, ?_⟩ <;> decide
  · obtain ⟨_, _, _, _, hws, hb1, hb2, hb3, hb4, hb5, hb6⟩ := isDigit10_ne_special c h
    obtain ⟨hbr1, hbr2⟩ := isDigit10_ne_brackets c h
    exact ⟨hws, hb1, hb2, hb3, hb4, hb5, hb6, hbr1, hbr2⟩

/-- Route `parseVal` through the dispatch to `parseNum` for a token whose
head is a sign or digit. -/
theorem parseVal_num (fuel : Nat) (l rest : List Char)
    (hhead : ∃ c t, l = c :: t ∧ (c = '-' ∨ isDigit10 c = true))
    (hnum : ∃ v, parseNum (l ++ rest) = some (v, rest)) :
    ∃ w, parseVal (fuel + 1) (l ++ rest) = some (w, rest) := by
  obtain ⟨c, t, rfl, hc⟩ := hhead
  obtain ⟨hws, h1, h2, h3, h4, h5, h6, _, _⟩ := numHead_props c hc
  obtain ⟨v, hv⟩ := hnum
  refine ⟨v, ?_⟩
  rw [List.cons_append] at hv ⊢
  simp only [parseVal]
  rw [skipWs_not_ws c _ hws]
  dsimp only
  rw [if_neg h1, if_neg h2, if_neg h3, if_neg h4, if_neg h5, if_neg h6]
  exact hv

theorem parseMembers_ws_congr (fuel : Nat) (cs cs2 : List Char)
    (acc : List (String × JValue)) (h : skipWs cs = skipWs cs2) :
    parseMembers fuel cs acc = parseMembers fuel cs2 acc := by
  cases fuel with
  | zero => rfl
  | succ f => simp only [parseMembers, h]

theorem dumpVal_head (v : JValue) :
    ∃ c t, dumpVal v = c :: t ∧ isJsonWs c = false ∧ c ≠ ']' ∧ c ≠ '}' := by
  cases v with
  | null => refine ⟨'n', _, rfl, ?_, ?_, ?_⟩ <;> decide
  | bool b =>
      cases b with
      | true => refine ⟨'t', _, rfl, ?_, ?_, ?_⟩ <;> decide
      | false => refine ⟨'f', _, rfl, ?_, ?_, ?_⟩ <;> decide
  | str s =>
      refine ⟨'"', escList s.data ++ ['"'], rfl, ?_, ?_, ?_⟩ <;> decide
  | arr xs =>
      refine ⟨'[', dumpElems xs ++ [']'], rfl, ?_, ?_, ?_⟩ <;> decide
  | obj kvs =>
      refine ⟨'{', dumpMembers kvs ++ ['}'], rfl, ?_, ?_, ?_⟩ <;> decide
  | int n =>
      obtain ⟨c, t, hct, hc⟩ := intChars_head n
      obtain ⟨hws, _, _, _, _, _, _, hb1, hb2⟩ := numHead_props c hc
      exact ⟨c, t, hct, hws, hb1, hb2⟩
  | float m e =>
      obtain ⟨c, t, hct, hc⟩ := floatChars_head m e
      obtain ⟨hws, _, _, _, _, _, _, hb1, hb2⟩ := numHead_props c hc
      exact ⟨c, t, hct, hws, hb1, hb2⟩
  | dec m s =>
      simp only [dumpVal]
      by_cases hd : (10 : Int) ^ s ∣ m
      · rw [if_pos hd]
        obtain ⟨c, t, hct, hc⟩ := intChars_head (m / (10 : Int) ^ s)
        obtain ⟨hws, _, _, _, _, _, _, hb1, hb2⟩ := numHead_props c hc
        exact ⟨c, t, hct, hws, hb1, hb2⟩
      · rw [if_neg hd]
        obtain ⟨c, t, hct, hc⟩ := floatChars_head m (-(s : Int))
        obtain ⟨hws, _, _, _, _, _, _, hb1, hb2⟩ := numHead_props c hc
        exact ⟨c, t, hct, hws, hb1, hb2⟩

theorem dumpMembers_head (k : String) (v : JValue) (t : List (String × JValue)) :
    ∃ tl, dumpMembers ((k, v) :: t) = '"' :: tl := by
  cases t with
  | nil => exact ⟨escList k.data ++ '"' :: ':' :: ' ' :: dumpVal v, rfl⟩
  | cons kv2 t2 =>
      exact ⟨(escList k.data ++ '"' :: ':' :: ' ' :: dumpVal v) ++
        ',' :: ' ' :: dumpMembers (kv2 :: t2), rfl⟩

theorem stopOk_comma (t : List Char) : stopOk (',' :: t) :=
  Or.inr ⟨',', t, rfl, Or.inl rfl⟩

theorem stopOk_rbracket (t : List Char) : stopOk (']' :: t) :=
  Or.inr ⟨']', t, rfl, Or.inr (Or.inl rfl)⟩

theorem stopOk_rbrace (t : List Char) : stopOk ('}' :: t) :=
  Or.inr ⟨'}', t, rfl, Or.inr (Or.inr rfl)⟩

theorem jsize_pos (v : JValue) : 1 ≤ jsize v := by
  cases v <;> simp [jsize]

theorem parseVal_arr_cons (f : Nat) (cs1 : List Char) (c0 : Char) (t0 : List Char)
    (hcs : cs1 = c0 :: t0) (hws : isJsonWs c0 = false) (hne : c0 ≠ ']') :
    parseVal (f + 1) ('[' :: cs1) = parseElems f cs1 [] := by
  simp only [parseVal]
  rw [skipWs_not_ws '[' cs1 (by decide)]
  dsimp only
  rw [if_neg (by decide : ¬('[' : Char) = '{'),
    if_pos (rfl : ('[' : Char) = '[')]
  rw [hcs, skipWs_not_ws c0 t0 hws]
  dsimp only
  rw [if_neg hne]

theorem parseVal_obj_cons (f : Nat) (cs1 : List Char) (c0 : Char) (t0 : List Char)
    (hcs : cs1 = c0 :: t0) (hws : isJsonWs c0 = false) (hne : c0 ≠ '}') :
    parseVal (f + 1) ('{' :: cs1) = parseMembers f cs1 [] := by
  simp only [parseVal]
  rw [skipWs_not_ws '{' cs1 (by decide)]
  dsimp only
  rw [if_pos (rfl : ('{' : Char) = '{')]
  rw [hcs, skipWs_not_ws c0 t0 hws]
  dsimp only
  rw [if_neg hne]

theorem parseVal_str (f : Nat) (sd rest : List Char) :
    ∃ out, parseVal (f + 1) (('"' :: (escList sd ++ '"' :: rest))) =
      some (.str (String.mk out), rest) := by
  have hlen : sd.length < (escList sd ++ '"' :: rest).length + 1 := by
    have := escList_length_ge sd
    simp only [List.length_append, List.length_cons]
    omega
  obtain ⟨out, hout⟩ :=
    parseStrAux_esc sd ((escList sd ++ '"' :: rest).length + 1) [] rest hlen
  refine ⟨out, ?_⟩
  simp only [parseVal]
  rw [skipWs_not_ws '"' _ (by decide)]
  dsimp only
  rw [if_neg (by decide : ¬('"' : Char) = '{'),
    if_neg (by decide : ¬('"' : Char) = '['),
    if_pos (rfl : ('"' : Char) = '"'), hout]


theorem dumpElems_cons_head (x : JValue) (xs : List JValue) :
    ∃ c t, dumpElems (x :: xs) = c :: t ∧ isJsonWs c = false ∧ c ≠ ']' := by
  obtain ⟨c, t0, hct, hws, hb, _⟩ := dumpVal_head x
  cases xs with
  | nil => exact ⟨c, t0, hct, hws, hb⟩
  | cons y ys =>
      refine ⟨c, t0 ++ ',' :: ' ' :: dumpElems (y :: ys), ?_, hws, hb⟩
      show dumpVal x ++ ',' :: ' ' :: dumpElems (y :: ys) = _
      rw [hct, List.cons_append]

theorem parse_dump_main : ∀ fuel : Nat,
    (∀ v rest, jsize v < fuel → stopOk rest →
      ∃ w, parseVal fuel (dumpVal v ++ rest) = some (w, rest)) ∧
    (∀ x xs rest acc, jsizeL (x :: xs) < fuel → stopOk rest →
      ∃ w, parseElems fuel (dumpElems (x :: xs) ++ ']' :: rest) acc = some (w, rest)) ∧
    (∀ k v t rest acc, jsizeO ((k, v) :: t) < fuel → stopOk rest →
      ∃ w, parseMembers fuel (dumpMembers ((k, v) :: t) ++ '}' :: rest) acc =
        some (w, rest)) := by
  intro fuel
  induction fuel with
  | zero =>
      refine ⟨?_, ?_, ?_⟩
      · intro v rest hs _
        exact absurd hs (by have := jsize_pos v; omega)
      · intro x xs rest acc hs _
        have h1 : jsizeL (x :: xs) = 1 + jsize x + jsizeL xs := rfl
        exact absurd hs (by omega)
      · intro k v t rest acc hs _
        have h1 : jsizeO ((k, v) :: t) = 1 + jsize v + jsizeO t := rfl
        exact absurd hs (by omega)
  | succ f ih =>
      obtain ⟨ihP, ihQ, ihR⟩ := ih
      refine ⟨?_, ?_, ?_⟩
      · -- values
        intro v rest hs hr
        cases v with
        | null => exact ⟨.null, rfl⟩
        | bool b =>
            cases b with
            | true => exact ⟨.bool true, rfl⟩
            | false => exact ⟨.bool false, rfl⟩
        | int n =>
            show ∃ w, parseVal (f + 1) (intChars n ++ rest) = some (w, rest)
            exact parseVal_num f (intChars n) rest (intChars_head n)
              (parseNum_intChars n rest hr)
        | dec m s =>
            show ∃ w, parseVal (f + 1)
              ((if (10 : Int) ^ s ∣ m then intChars (m / (10 : Int) ^ s)
                else floatChars m (-(s : Int))) ++ rest) = some (w, rest)
            by_cases hd : (10 : Int) ^ s ∣ m
            · rw [if_pos hd]
              exact parseVal_num f _ rest (intChars_head _)
                (parseNum_intChars _ rest hr)
            · rw [if_neg hd]
              exact parseVal_num f _ rest (floatChars_head _ _)
                (parseNum_floatChars _ _ rest hr)
        | float m e =>
            show ∃ w, parseVal (f + 1) (floatChars m e ++ rest) = some (w, rest)
            exact parseVal_num f (floatChars m e) rest (floatChars_head m e)
              (parseNum_floatChars m e rest hr)
        | str s0 =>
            have hshape : dumpVal (.str s0) ++ rest =
                '"' :: (escList s0.data ++ '"' :: rest) := by
              show ('"' :: escList s0.data ++ ['"']) ++ rest = _
              simp [List.cons_append, List.append_assoc]
            rw [hshape]
            obtain ⟨out, hout⟩ := parseVal_str f s0.data rest
            exact ⟨.str (String.mk out), hout⟩
        | arr xs =>
            cases xs with
            | nil => exact ⟨.arr [], rfl⟩
            | cons x xs2 =>
                have hsz2 : jsizeL (x :: xs2) < f := by
                  have h1 : jsize (.arr (x :: xs2)) = 1 + jsizeL (x :: xs2) := rfl
                  omega
                have hshape : dumpVal (.arr (x :: xs2)) ++ rest =
                    '[' :: (dumpElems (x :: xs2) ++ ']' :: rest) := by
                  show ('[' :: dumpElems (x :: xs2) ++ [']']) ++ rest = _
                  simp [List.cons_append, List.append_assoc]
                rw [hshape]
                obtain ⟨c0, t0, hct, hws0, hne0⟩ := dumpElems_cons_head x xs2
                have hcs : dumpElems (x :: xs2) ++ ']' :: rest =
                    c0 :: (t0 ++ ']' :: rest) := by
                  rw [hct]; rfl
                obtain ⟨w, hw⟩ := ihQ x xs2 rest [] hsz2 hr
                rw [parseVal_arr_cons f _ c0 (t0 ++ ']' :: rest) hcs hws0 hne0]
                exact ⟨w, hw⟩
        | obj kvs =>
            cases kvs with
            | nil => exact ⟨.obj [], rfl⟩
            | cons kv t =>
                obtain ⟨k, v⟩ := kv
                have hsz2 : jsizeO ((k, v) :: t) < f := by
                  have h1 : jsize (.obj ((k, v) :: t)) = 1 + jsizeO ((k, v) :: t) := rfl
                  omega
                have hshape : dumpVal (.obj ((k, v) :: t)) ++ rest =
                    '{' :: (dumpMembers ((k, v) :: t) ++ '}' :: rest) := by
                  show ('{' :: dumpMembers ((k, v) :: t) ++ ['}']) ++ rest = _
                  simp [List.cons_append, List.append_assoc]
                rw [hshape]
                obtain ⟨tl, htl⟩ := dumpMembers_head k v t
                have hcs : dumpMembers ((k, v) :: t) ++ '}' :: rest =
                    '"' :: (tl ++ '}' :: rest) := by
                  rw [htl]; rfl
                obtain ⟨w, hw⟩ := ihR k v t rest [] hsz2 hr
                rw [parseVal_obj_cons f _ '"' (tl ++ '}' :: rest) hcs (by decide)
                  (by decide)]
                exact ⟨w, hw⟩
      · -- array elements
        intro x xs rest acc hs hr
        cases xs with
        | nil =>
            have hszx : jsize x < f := by
              have h1 : jsizeL [x] = 1 + jsize x + jsizeL [] := rfl
              have h2 : jsizeL ([] : List JValue) = 0 := rfl
              omega
            obtain ⟨w1, hw1⟩ := ihP x (']' :: rest) hszx (stopOk_rbracket rest)
            refine ⟨.arr (w1 :: acc).reverse, ?_⟩
            show parseElems (f + 1) (dumpVal x ++ ']' :: rest) acc =
              some (.arr (w1 :: acc).reverse, rest)
            show (match parseVal f (dumpVal x ++ ']' :: rest) with
              | none => none
              | some (vv, c1) =>
                  match skipWs c1 with
                  | ',' :: c2 => parseElems f c2 (vv :: acc)
                  | ']' :: c2 => some (.arr (vv :: acc).reverse, c2)
                  | _ => none) = some (.arr (w1 :: acc).reverse, rest)
            rw [hw1]
            rfl
        | cons y ys =>
            have h1 : jsizeL (x :: y :: ys) = 1 + jsize x + jsizeL (y :: ys) := rfl
            have h2 : jsizeL (y :: ys) = 1 + jsize y + jsizeL ys := rfl
            have hszx : jsize x < f := by omega
            have hszys : jsizeL (y :: ys) < f := by
              have := jsize_pos x; omega
            obtain ⟨w1, hw1⟩ := ihP x (',' :: ' ' :: (dumpElems (y :: ys) ++ ']' :: rest))
              hszx (stopOk_comma _)
            obtain ⟨w, hw⟩ := ihQ y ys rest (w1 :: acc) hszys hr
            refine ⟨w, ?_⟩
            have hshape : dumpElems (x :: y :: ys) ++ ']' :: rest =
                dumpVal x ++ ',' :: ' ' :: (dumpElems (y :: ys) ++ ']' :: rest) := by
              show (dumpVal x ++ ',' :: ' ' :: dumpElems (y :: ys)) ++ ']' :: rest = _
              simp [List.append_assoc]
            rw [hshape]
            show (match parseVal f
                (dumpVal x ++ ',' :: ' ' :: (dumpElems (y :: ys) ++ ']' :: rest)) with
              | none => none
              | some (vv, c1) =>
                  match skipWs c1 with
                  | ',' :: c2 => parseElems f c2 (vv :: acc)
                  | ']' :: c2 => some (.arr (vv :: acc).reverse, c2)
                  | _ => none) = some (w, rest)
            rw [hw1]
            show parseElems f (' ' :: (dumpElems (y :: ys) ++ ']' :: rest)) (w1 :: acc) =
              some (w, rest)
            rw [parseElems_ws f ' ' (dumpElems (y :: ys) ++ ']' :: rest) (w1 :: acc)
              (by decide)]
            exact hw
      · -- object members
        intro k v t rest acc hs hr
        cases t with
        | nil =>
            have hszv : jsize v < f := by
              have h1 : jsizeO [(k, v)] = 1 + jsize v + jsizeO [] := rfl
              have h2 : jsizeO ([] : List (String × JValue)) = 0 := rfl
              omega
            obtain ⟨w1, hw1⟩ := ihP v ('}' :: rest) hszv (stopOk_rbrace rest)
            have hfuel : k.data.length <
                (escList k.data ++ '"' :: ':' :: ' ' :: (dumpVal v ++ '}' :: rest)).length
                  + 1 := by
              have := escList_length_ge k.data
              simp only [List.length_append, List.length_cons]
              omega
            obtain ⟨kOut, hk⟩ := parseStrAux_esc k.data
              ((escList k.data ++ '"' :: ':' :: ' ' :: (dumpVal v ++ '}' :: rest)).length
                + 1)
              [] (':' :: ' ' :: (dumpVal v ++ '}' :: rest)) hfuel
            refine ⟨.obj (objInsert acc (String.mk kOut) w1), ?_⟩
            have hshape : dumpMembers [(k, v)] ++ '}' :: rest =
                '"' :: (escList k.data ++ '"' :: ':' :: ' ' ::
                  (dumpVal v ++ '}' :: rest)) := by
              show ('"' :: escList k.data ++ '"' :: ':' :: ' ' :: dumpVal v) ++
                '}' :: rest = _
              simp [List.cons_append, List.append_assoc]
            rw [hshape]
            show (match parseStrAux
                ((escList k.data ++ '"' :: ':' :: ' ' ::
                  (dumpVal v ++ '}' :: rest)).length + 1) []
                (escList k.data ++ '"' :: ':' :: ' ' :: (dumpVal v ++ '}' :: rest)) with
              | none => none
              | some (kC, c2) =>
                  match skipWs c2 with
                  | ':' :: c3 =>
                      match parseVal f c3 with
                      | none => none
                      | some (vv, c4) =>
                          match skipWs c4 with
                          | ',' :: c5 => parseMembers f c5 (objInsert acc (String.mk kC) vv)
                          | '}' :: c5 => some (.obj (objInsert acc (String.mk kC) vv), c5)
                          | _ => none
                  | _ => none) = some (.obj (objInsert acc (String.mk kOut) w1), rest)
            rw [hk]
            show (match parseVal f (' ' :: (dumpVal v ++ '}' :: rest)) with
              | none => none
              | some (vv, c4) =>
                  match skipWs c4 with
                  | ',' :: c5 => parseMembers f c5 (objInsert acc (String.mk kOut) vv)
                  | '}' :: c5 => some (.obj (objInsert acc (String.mk kOut) vv), c5)
                  | _ => none) = some (.obj (objInsert acc (String.mk kOut) w1), rest)
            rw [parseVal_ws_congr f (' ' :: (dumpVal v ++ '}' :: rest))
              (dumpVal v ++ '}' :: rest) (skipWs_cons_ws ' ' _ (by decide)), hw1]
            rfl
        | cons kv2 t2 =>
            obtain ⟨k2, v2⟩ := kv2
            have h1 : jsizeO ((k, v) :: (k2, v2) :: t2) =
                1 + jsize v + jsizeO ((k2, v2) :: t2) := rfl
            have hszv : jsize v < f := by omega
            have hszt : jsizeO ((k2, v2) :: t2) < f := by
              have := jsize_pos v; omega
            obtain ⟨w1, hw1⟩ := ihP v
              (',' :: ' ' :: (dumpMembers ((k2, v2) :: t2) ++ '}' :: rest)) hszv
              (stopOk_comma _)
            have hfuel : k.data.length <
                (escList k.data ++ '"' :: ':' :: ' ' :: (dumpVal v ++ ',' :: ' ' ::
                  (dumpMembers ((k2, v2) :: t2) ++ '}' :: rest))).length + 1 := by
              have := escList_length_ge k.data
              simp only [List.length_append, List.length_cons]
              omega
            obtain ⟨kOut, hk⟩ := parseStrAux_esc k.data
              ((escList k.data ++ '"' :: ':' :: ' ' :: (dumpVal v ++ ',' :: ' ' ::
                (dumpMembers ((k2, v2) :: t2) ++ '}' :: rest))).length + 1)
              [] (':' :: ' ' :: (dumpVal v ++ ',' :: ' ' ::
                (dumpMembers ((k2, v2) :: t2) ++ '}' :: rest))) hfuel
            obtain ⟨w, hw⟩ := ihR k2 v2 t2 rest (objInsert acc (String.mk kOut) w1)
              hszt hr
            refine ⟨w, ?_⟩
            have hshape : dumpMembers ((k, v) :: (k2, v2) :: t2) ++ '}' :: rest =
                '"' :: (escList k.data ++ '"' :: ':' :: ' ' :: (dumpVal v ++
                  ',' :: ' ' :: (dumpMembers ((k2, v2) :: t2) ++ '}' :: rest))) := by
              show ('"' :: escList k.data ++ '"' :: ':' :: ' ' :: dumpVal v ++
                ',' :: ' ' :: dumpMembers ((k2, v2) :: t2)) ++ '}' :: rest = _
              simp [List.cons_append, List.append_assoc]
            rw [hshape]
            show (match parseStrAux
                ((escList k.data ++ '"' :: ':' :: ' ' :: (dumpVal v ++ ',' :: ' ' ::
                  (dumpMembers ((k2, v2) :: t2) ++ '}' :: rest))).length + 1) []
                (escList k.data ++ '"' :: ':' :: ' ' :: (dumpVal v ++ ',' :: ' ' ::
                  (dumpMembers ((k2, v2) :: t2) ++ '}' :: rest))) with
              | none => none
              | some (kC, c2) =>
                  match skipWs c2 with
                  | ':' :: c3 =>
                      match parseVal f c3 with
                      | none => none
                      | some (vv, c4) =>
                          match skipWs c4 with
                          | ',' :: c5 => parseMembers f c5 (objInsert acc (String.mk kC) vv)
                          | '}' :: c5 => some (.obj (objInsert acc (String.mk kC) vv), c5)
                          | _ => none
                  | _ => none) = some (w, rest)
            rw [hk]
            show (match parseVal f (' ' :: (dumpVal v ++ ',' :: ' ' ::
                (dumpMembers ((k2, v2) :: t2) ++ '}' :: rest))) with
              | none => none
              | some (vv, c4) =>
                  match skipWs c4 with
                  | ',' :: c5 => parseMembers f c5 (objInsert acc (String.mk kOut) vv)
                  | '}' :: c5 => some (.obj (objInsert acc (String.mk kOut) vv), c5)
                  | _ => none) = some (w, rest)
            rw [parseVal_ws_congr f (' ' :: (dumpVal v ++ ',' :: ' ' ::
              (dumpMembers ((k2, v2) :: t2) ++ '}' :: rest)))
              (dumpVal v ++ ',' :: ' ' :: (dumpMembers ((k2, v2) :: t2) ++ '}' :: rest))
              (skipWs_cons_ws ' ' _ (by decide)), hw1]
            show parseMembers f
              (' ' :: (dumpMembers ((k2, v2) :: t2) ++ '}' :: rest))
              (objInsert acc (String.mk kOut) w1) = some (w, rest)
            rw [parseMembers_ws_congr f
              (' ' :: (dumpMembers ((k2, v2) :: t2) ++ '}' :: rest))
              (dumpMembers ((k2, v2) :: t2) ++ '}' :: rest)
              (objInsert acc (String.mk kOut) w1) (skipWs_cons_ws ' ' _ (by decide))]
            exact hw

theorem jsize_le_dump :
    (∀ v, jsize v ≤ (dumpVal v).length) ∧
    (∀ xs, jsizeL xs ≤ 1 + (dumpElems xs).length) ∧
    (∀ kvs, jsizeO kvs ≤ 1 + (dumpMembers kvs).length) := by
  refine jvalue_induction (fun v => jsize v ≤ (dumpVal v).length)
    (fun xs => jsizeL xs ≤ 1 + (dumpElems xs).length)
    (fun kvs => jsizeO kvs ≤ 1 + (dumpMembers kvs).length)
    (by decide) ?_ ?_ ?_ ?_ ?_ ?_ ?_ (by decide) ?_ (by decide) ?_
  · intro b; cases b <;> decide
  · intro n
    obtain ⟨c, t, hct, _⟩ := intChars_head n
    show jsize (.int n) ≤ (intChars n).length
    rw [hct]
    have h1 : jsize (.int n) = 1 := rfl
    simp [h1]
  · intro m s
    show jsize (.dec m s) ≤ (dumpVal (.dec m s)).length
    have h1 : jsize (.dec m s) = 1 := rfl
    simp only [dumpVal]
    by_cases hd : (10 : Int) ^ s ∣ m
    · rw [if_pos hd]
      obtain ⟨c, t, hct, _⟩ := intChars_head (m / (10 : Int) ^ s)
      rw [hct]
      simp [h1]
    · rw [if_neg hd]
      obtain ⟨c, t, hct, _⟩ := floatChars_head m (-(s : Int))
      rw [hct]
      simp [h1]
  · intro m e
    obtain ⟨c, t, hct, _⟩ := floatChars_head m e
    show jsize (.float m e) ≤ (floatChars m e).length
    rw [hct]
    have h1 : jsize (.float m e) = 1 := rfl
    simp [h1]
  · intro s
    show jsize (.str s) ≤ (('"' :: escList s.data ++ ['"'])).length
    have h1 : jsize (.str s) = 1 := rfl
    simp [h1]
  · intro xs hQ
    have h1 : jsize (.arr xs) = 1 + jsizeL xs := rfl
    have h2 : (dumpVal (.arr xs)).length = (dumpElems xs).length + 2 := by
      show (('[' :: dumpElems xs) ++ [']']).length = _
      simp
    omega
  · intro kvs hR
    have h1 : jsize (.obj kvs) = 1 + jsizeO kvs := rfl
    have h2 : (dumpVal (.obj kvs)).length = (dumpMembers kvs).length + 2 := by
      show (('{' :: dumpMembers kvs) ++ ['}']).length = _
      simp
    omega
  · intro x xs hP hQ
    have h1 : jsizeL (x :: xs) = 1 + jsize x + jsizeL xs := rfl
    cases xs with
    | nil =>
        have h2 : dumpElems [x] = dumpVal x := rfl
        have h3 : jsizeL ([] : List JValue) = 0 := rfl
        show jsizeL [x] ≤ 1 + (dumpElems [x]).length
        rw [h2]
        omega
    | cons y ys =>
        have h2 : (dumpElems (x :: y :: ys)).length =
            (dumpVal x).length + 2 + (dumpElems (y :: ys)).length := by
          show (dumpVal x ++ ',' :: ' ' :: dumpElems (y :: ys)).length = _
          simp only [List.length_append, List.length_cons]
          omega
        omega
  · intro k v t hP hR
    have h1 : jsizeO ((k, v) :: t) = 1 + jsize v + jsizeO t := rfl
    cases t with
    | nil =>
        have h2 : (dumpMembers [(k, v)]).length =
            (escList k.data).length + 4 + (dumpVal v).length := by
          show ('"' :: escList k.data ++ '"' :: ':' :: ' ' :: dumpVal v).length = _
          simp only [List.length_append, List.length_cons]
          omega
        have h3 : jsizeO ([] : List (String × JValue)) = 0 := rfl
        omega
    | cons kv2 t2 =>
        have h2 : (dumpMembers ((k, v) :: kv2 :: t2)).length =
            (escList k.data).length + 4 + (dumpVal v).length + 2 +
              (dumpMembers (kv2 :: t2)).length := by
          show ('"' :: escList k.data ++ '"' :: ':' :: ' ' :: dumpVal v ++
            ',' :: ' ' :: dumpMembers (kv2 :: t2)).length = _
          simp only [List.length_append, List.length_cons]
          omega
        omega

theorem jsonLoads_dumps (v : JValue) : ∃ w, jsonLoads (dumps v) = .ok w := by
  have hsz : jsize v < (dumpVal v).length + 1 := by
    have := jsize_le_dump.1 v; omega
  obtain ⟨w, hw⟩ := (parse_dump_main ((dumpVal v).length + 1)).1 v [] hsz (Or.inl rfl)
  rw [List.append_nil] at hw
  refine ⟨w, ?_⟩
  simp only [jsonLoads]
  have hlen : (dumps v).length = (dumpVal v).length := rfl
  have hdata : (dumps v).data = dumpVal v := rfl
  rw [hlen, hdata, hw]
  rfl

theorem jsonValid_dumps (v : JValue) : jsonValid (dumps v) = true := by
  obtain ⟨w, hw⟩ := jsonLoads_dumps v
  simp [jsonValid, hw]

/-! Spec-side numeric-normalization rule, written from the spec's words
(§4.8, restated in C9): every decimal-typed numeric value with no
fractional part (`o % 1 == 0`, i.e. `10^s ∣ m` for the value `m·10^(-s)`)
is converted to an integer, and any other decimal value to a
floating-point number, at every depth of the body value.  To be compared
with the serializer `dumpVal` translated from `DecimalEncoder`. -/
mutual

/-- Spec-side decimal normalization (see the comment above). -/
def decNormalize : JValue → JValue
  | .dec m s =>
      if (10 : Int) ^ s ∣ m then .int (m / (10 : Int) ^ s)
      else .float m (-(s : Int))
  | .arr xs => .arr (decNormalizeL xs)
  | .obj kvs => .obj (decNormalizeO kvs)
  | v => v

def decNormalizeL : List JValue → List JValue
  | [] => []
  | x :: t => decNormalize x :: decNormalizeL t

def decNormalizeO : List (String × JValue) → List (String × JValue)
  | [] => []
  | (k, x) :: t => (k, decNormalize x) :: decNormalizeO t

end

theorem dump_decNormalize :
    (∀ v, dumpVal (decNormalize v) = dumpVal v) ∧
    (∀ xs, dumpElems (decNormalizeL xs) = dumpElems xs) ∧
    (∀ kvs, dumpMembers (decNormalizeO kvs) = dumpMembers kvs) := by
  refine jvalue_induction (fun v => dumpVal (decNormalize v) = dumpVal v)
    (fun xs => dumpElems (decNormalizeL xs) = dumpElems xs)
    (fun kvs => dumpMembers (decNormalizeO kvs) = dumpMembers kvs)
    rfl (fun b => rfl) (fun n => rfl) ?_ (fun m e => rfl) (fun s => rfl)
    ?_ ?_ rfl ?_ rfl ?_
  · intro m s
    show dumpVal (decNormalize (.dec m s)) = dumpVal (.dec m s)
    have h1 : decNormalize (.dec m s) =
        if (10 : Int) ^ s ∣ m then .int (m / (10 : Int) ^ s)
        else .float m (-(s : Int)) := rfl
    rw [h1]
    by_cases hd : (10 : Int) ^ s ∣ m
    · rw [if_pos hd]
      show intChars (m / (10 : Int) ^ s) = dumpVal (.dec m s)
      simp only [dumpVal]
      rw [if_pos hd]
    · rw [if_neg hd]
      show floatChars m (-(s : Int)) = dumpVal (.dec m s)
      simp only [dumpVal]
      rw [if_neg hd]
  · intro xs hQ
    show '[' :: dumpElems (decNormalizeL xs) ++ [']'] = '[' :: dumpElems xs ++ [']']
    rw [hQ]
  · intro kvs hR
    show '{' :: dumpMembers (decNormalizeO kvs) ++ ['}'] = '{' :: dumpMembers kvs ++ ['}']
    rw [hR]
  · intro x xs hP hQ
    cases xs with
    | nil =>
        show dumpVal (decNormalize x) = dumpVal x
        exact hP
    | cons y ys =>
        show dumpVal (decNormalize x) ++ ',' :: ' ' :: dumpElems (decNormalizeL (y :: ys)) =
          dumpVal x ++ ',' :: ' ' :: dumpElems (y :: ys)
        rw [hP, hQ]
  · intro k v t hP hR
    cases t with
    | nil =>
        show '"' :: escList k.data ++ '"' :: ':' :: ' ' :: dumpVal (decNormalize v) =
          '"' :: escList k.data ++ '"' :: ':' :: ' ' :: dumpVal v
        rw [hP]
    | cons kv2 t2 =>
        obtain ⟨k2, v2⟩ := kv2
        show '"' :: escList k.data ++ '"' :: ':' :: ' ' :: dumpVal (decNormalize v) ++
            ',' :: ' ' :: dumpMembers (decNormalizeO ((k2, v2) :: t2)) =
          '"' :: escList k.data ++ '"' :: ':' :: ' ' :: dumpVal v ++
            ',' :: ' ' :: dumpMembers ((k2, v2) :: t2)
        rw [hP, hR]

theorem dumps_decNormalize (v : JValue) : dumps (decNormalize v) = dumps v := by
  show String.mk (dumpVal (decNormalize v)) = String.mk (dumpVal v)
  rw [dump_decNormalize.1 v]

theorem handler_ok_resp (ev : Event) (st : Store) (r : List Nat)
    (out : Response × List StoreCall) (h : handler ev st r = .ok out) :
    ∃ s v t, out = (resp s v, t) := by
  unfold handler at h
  cases hlp : logPhase ev with
  | error e => rw [hlp] at h; cases h
  | ok u =>
      rw [hlp] at h
      cases hm : rawMethodNested ev with
      | error e => rw [hm] at h; cases h
      | ok mv =>
          rw [hm] at h
          dsimp only at h
          cases hopt : (pyEqStr mv "OPTIONS" || pyEqStr (evGet ev "httpMethod") "OPTIONS") with
          | true =>
              rw [hopt] at h
              simp only [if_true] at h
              injection h with h
              exact ⟨200, .obj [], [], h.symm⟩
          | false =>
              rw [hopt] at h
              simp only [Bool.false_eq_true, if_false] at h
              injection h with h
              obtain ⟨s, v, t, hcs⟩ := catchExc_shape (routeInner ev st r)
                (fun x t hx => routeInner_shape ev st r x t hx)
              exact ⟨s, v, t, by rw [← h, hcs]⟩

/-- C9: every response envelope the handler returns carries exactly the four
fixed headers `Content-Type: application/json`,
`Access-Control-Allow-Origin: *`, `Access-Control-Allow-Headers: *` and
`Access-Control-Allow-Methods: GET,POST,PUT,DELETE,OPTIONS`, and its body is
a valid JSON string; and the serializer renders every decimal-typed numeric
value exactly as the spec's normalization rule demands — as an integer when
it has no fractional part and as a floating-point number otherwise, at every
depth of the body value. -/
theorem handler_response_invariants :
    (∀ ev st r out, handler ev st r = .ok out →
      out.1.headers = corsHeaders ∧ jsonValid out.1.body = true) ∧
    (∀ v : JValue, dumps (decNormalize v) = dumps v) := by
  constructor
  · intro ev st r out h
    obtain ⟨s, v, t, hout⟩ := handler_ok_resp ev st r out h
    subst hout
    exact ⟨rfl, jsonValid_dumps v⟩
  · exact dumps_decNormalize

theorem handler_response_invariants_witness :
    handler [(("httpMethod" : String), JValue.str "OPTIONS")] stOk [] =
        .ok (resp 200 (.obj []), []) ∧
    ((resp 200 (.obj []), ([] : List StoreCall)).1.headers = corsHeaders ∧
      jsonValid (resp 200 (.obj []), ([] : List StoreCall)).1.body = true) ∧
    dumps (decNormalize (.dec 25 1)) = dumps (.dec 25 1) :=
  ⟨rfl,
   handler_response_invariants.1 [(("httpMethod" : String), JValue.str "OPTIONS")]
     stOk [] (resp 200 (.obj []), []) rfl,
   handler_response_invariants.2 (.dec 25 1)⟩
